import Mathlib

/-!
# Verification of the Tic-Tac-Toe decision engine

Shallow embedding of `src/ai.py` and `src/game_logic.py`:
board evaluation, the depth-bounded alpha-beta minimax, the tiered
move-selection entry point `get_move`, and `GameState.make_move`.

Cells are `Option Mark` (`none` is an empty cell, mirroring Python's
`None`).  A board is a function `Fin 3 → Fin 3 → Cell`, mirroring the
3×3 list-of-lists.  Python's `float('-inf')`/`float('inf')` sentinels
for alpha/beta and the best-score accumulator are modelled by the
integers `negInf = -1000` and `posInf = 1000`: every score the search
can produce lies in `[-10, 10]`, so the sentinels compare exactly like
the infinities do in the source.  Randomness (`random.random()`,
`random.choice`) is modelled by an explicit oracle `RandSrc` passed to
`get_move`.  The recursive search is defined with an explicit gas
parameter; termination theorems show any gas above the number of empty
cells yields the same (defined) result.
-/

namespace TicTacToe

/-- A placed symbol: `X` is the human player, `O` the engine. -/
inductive Mark : Type
  | X
  | O
  deriving DecidableEq, Repr, Fintype

/-- A board cell: `none` models Python's `None` (empty). -/
abbrev Cell : Type := Option Mark

/-- The 3×3 board, indexed row-major like `board[r][c]` in the source. -/
abbrev Board : Type := Fin 3 → Fin 3 → Cell

/-- The all-empty starting board. -/
def emptyBoard : Board := fun _ _ => none

/-- Write one cell, leaving the rest of the board unchanged
(`board[r][c] = v`, on a copy). -/
def setCell (b : Board) (r c : Fin 3) (v : Cell) : Board :=
  fun i j => if i = r ∧ j = c then v else b i j

/-- All nine coordinates in row-major order, as produced by the nested
`for r ... for c ...` loops of the source. -/
def allCells : List (Fin 3 × Fin 3) :=
  (List.finRange 3).flatMap fun r => (List.finRange 3).map fun c => (r, c)

/-- `AIPlayer._get_empty_cells`: row-major list of coordinates of empty
cells. -/
def emptyCells (b : Board) : List (Fin 3 × Fin 3) :=
  allCells.filter fun p => (b p.1 p.2).isNone

/-- Number of empty cells, the termination measure of the search. -/
def numEmpty (b : Board) : Nat := (emptyCells b).length

/-- `AIPlayer._is_board_full`: true iff no cell is `None`. -/
def isBoardFull (b : Board) : Bool :=
  allCells.all fun p => (b p.1 p.2).isSome

/-- `AIPlayer._check_winner`: scan the three rows, the three columns,
the main diagonal, then the anti-diagonal; return the symbol of the
first completed line found, else `none`. -/
def checkWinnerAI (b : Board) : Option Mark :=
  if b 0 0 = b 0 1 ∧ b 0 1 = b 0 2 ∧ b 0 0 ≠ none then b 0 0
  else if b 1 0 = b 1 1 ∧ b 1 1 = b 1 2 ∧ b 1 0 ≠ none then b 1 0
  else if b 2 0 = b 2 1 ∧ b 2 1 = b 2 2 ∧ b 2 0 ≠ none then b 2 0
  else if b 0 0 = b 1 0 ∧ b 1 0 = b 2 0 ∧ b 0 0 ≠ none then b 0 0
  else if b 0 1 = b 1 1 ∧ b 1 1 = b 2 1 ∧ b 0 1 ≠ none then b 0 1
  else if b 0 2 = b 1 2 ∧ b 1 2 = b 2 2 ∧ b 0 2 ≠ none then b 0 2
  else if b 0 0 = b 1 1 ∧ b 1 1 = b 2 2 ∧ b 0 0 ≠ none then b 0 0
  else if b 0 2 = b 1 1 ∧ b 1 1 = b 2 0 ∧ b 0 2 ≠ none then b 0 2
  else none

/-- `GameState.check_winner` (the game-logic evaluator): same scan
order — rows, columns, main diagonal, anti-diagonal — with the
diagonal checks gated on a non-empty centre, as in the source.  The
`winning_line` pixel bookkeeping is a pure side channel and is not
modelled. -/
def checkWinnerGL (b : Board) : Option Mark :=
  if b 0 0 ≠ none ∧ b 0 0 = b 0 1 ∧ b 0 1 = b 0 2 then b 0 0
  else if b 1 0 ≠ none ∧ b 1 0 = b 1 1 ∧ b 1 1 = b 1 2 then b 1 0
  else if b 2 0 ≠ none ∧ b 2 0 = b 2 1 ∧ b 2 1 = b 2 2 then b 2 0
  else if b 0 0 ≠ none ∧ b 0 0 = b 1 0 ∧ b 1 0 = b 2 0 then b 0 0
  else if b 0 1 ≠ none ∧ b 0 1 = b 1 1 ∧ b 1 1 = b 2 1 then b 0 1
  else if b 0 2 ≠ none ∧ b 0 2 = b 1 2 ∧ b 1 2 = b 2 2 then b 0 2
  else if b 1 1 ≠ none ∧ b 0 0 = b 1 1 ∧ b 1 1 = b 2 2 then b 1 1
  else if b 1 1 ≠ none ∧ b 0 2 = b 1 1 ∧ b 1 1 = b 2 0 then b 1 1
  else none

/-- Sentinel standing for `float('-inf')`; all reachable scores lie in
`[-10, 10]`, so it compares like `-∞` does in the source. -/
def negInf : Int := -1000

/-- Sentinel standing for `float('inf')`. -/
def posInf : Int := 1000

/-- The maximizing half of the alpha-beta loop body
(`for row, col in empty_cells` in `_minimax`, `is_maximizing` case):
place `O` on each listed cell, score it with `rec`, fold a running
maximum, raise `alpha`, and stop early once `beta ≤ alpha`.  `none`
propagates gas exhaustion of the recursive scorer. -/
def abFoldMax (rec : Board → Int → Int → Option Int) (b : Board) :
    List (Fin 3 × Fin 3) → Int → Int → Int → Option Int
  | [], _, _, best => some best
  | (r, c) :: rest, alpha, beta, best =>
    match rec (setCell b r c (some Mark.O)) alpha beta with
    | none => none
    | some score =>
      let best' := max score best
      let alpha' := max alpha score
      if beta ≤ alpha' then some best'
      else abFoldMax rec b rest alpha' beta best'

/-- The minimizing half of the alpha-beta loop body: place `X`, fold a
running minimum, lower `beta`, stop once `beta ≤ alpha`. -/
def abFoldMin (rec : Board → Int → Int → Option Int) (b : Board) :
    List (Fin 3 × Fin 3) → Int → Int → Int → Option Int
  | [], _, _, best => some best
  | (r, c) :: rest, alpha, beta, best =>
    match rec (setCell b r c (some Mark.X)) alpha beta with
    | none => none
    | some score =>
      let best' := min score best
      let beta' := min beta score
      if beta' ≤ alpha then some best'
      else abFoldMin rec b rest alpha beta' best'

/-- `AIPlayer._minimax`, with an explicit gas parameter bounding the
recursion depth.  Terminal checks in source order: engine win
(`10 - depth`), player win (`depth - 10`), full board (`0`), depth
cutoff (`0`); otherwise recurse over the empty cells with alpha-beta
pruning.  Returns `none` only on gas exhaustion. -/
def minimaxGas (maxDepth : Nat) :
    Nat → Board → Nat → Bool → Int → Int → Option Int
  | 0, _, _, _, _, _ => none
  | gas + 1, b, depth, isMax, alpha, beta =>
    match checkWinnerAI b with
    | some Mark.O => some (10 - (depth : Int))
    | some Mark.X => some ((depth : Int) - 10)
    | none =>
      if isBoardFull b then some 0
      else if maxDepth ≤ depth then some 0
      else if isMax then
        abFoldMax (fun b' a bt => minimaxGas maxDepth gas b' (depth + 1) false a bt)
          b (emptyCells b) alpha beta negInf
      else
        abFoldMin (fun b' a bt => minimaxGas maxDepth gas b' (depth + 1) true a bt)
          b (emptyCells b) alpha beta posInf

/-- `AIPlayer._minimax` as a total function: gas `numEmpty b + 1`
always suffices (proved below), so the default is never taken. -/
def minimax (maxDepth : Nat) (b : Board) (depth : Nat) (isMax : Bool)
    (alpha beta : Int) : Int :=
  (minimaxGas maxDepth (numEmpty b + 1) b depth isMax alpha beta).getD 0

/-- Best-move selection loop of `_get_best_move`: fold over candidate
moves keeping the first move whose score strictly exceeds the running
best (`if score > best_score`). -/
def pickBest (score : Fin 3 × Fin 3 → Int) :
    List (Fin 3 × Fin 3) → Int → Option (Fin 3 × Fin 3) → Option (Fin 3 × Fin 3)
  | [], _, best => best
  | p :: rest, bestScore, best =>
    let s := score p
    if bestScore < s then pickBest score rest s (some p)
    else pickBest score rest bestScore best

/-- `AIPlayer._get_best_move`: score every empty cell (row-major) by
placing `O` and running `_minimax(depth 0, minimizing, -∞, ∞)`; keep
the first maximal one; `none` on a full board. -/
def getBestMove (maxDepth : Nat) (b : Board) : Option (Fin 3 × Fin 3) :=
  pickBest
    (fun p => minimax maxDepth (setCell b p.1 p.2 (some Mark.O)) 0 false negInf posInf)
    (emptyCells b) negInf none

/-- Unpruned fold for the maximizing player: plain running maximum over
the scored children, no alpha-beta window, no early exit.  Used by the
spec-side unpruned minimax and by the game-value function. -/
def optFoldMax (rec : Board → Option Int) (b : Board) (mk : Mark) :
    List (Fin 3 × Fin 3) → Int → Option Int
  | [], best => some best
  | (r, c) :: rest, best =>
    match rec (setCell b r c (some mk)) with
    | none => none
    | some score => optFoldMax rec b mk rest (max score best)

/-- Unpruned fold for the minimizing player. -/
def optFoldMin (rec : Board → Option Int) (b : Board) (mk : Mark) :
    List (Fin 3 × Fin 3) → Int → Option Int
  | [], best => some best
  | (r, c) :: rest, best =>
    match rec (setCell b r c (some mk)) with
    | none => none
    | some score => optFoldMin rec b mk rest (min score best)

/-- Modelled from the spec: the unpruned depth-bounded minimax with the
same terminal scoring as `_minimax`, the comparison point of the
alpha-beta refinement claim. -/
def minimaxPlainGas (maxDepth : Nat) : Nat → Board → Nat → Bool → Option Int
  | 0, _, _, _ => none
  | gas + 1, b, depth, isMax =>
    match checkWinnerAI b with
    | some Mark.O => some (10 - (depth : Int))
    | some Mark.X => some ((depth : Int) - 10)
    | none =>
      if isBoardFull b then some 0
      else if maxDepth ≤ depth then some 0
      else if isMax then
        optFoldMax (fun b' => minimaxPlainGas maxDepth gas b' (depth + 1) false)
          b Mark.O (emptyCells b) negInf
      else
        optFoldMin (fun b' => minimaxPlainGas maxDepth gas b' (depth + 1) true)
          b Mark.X (emptyCells b) posInf

/-- Total unpruned minimax. -/
def minimaxPlain (maxDepth : Nat) (b : Board) (depth : Nat) (isMax : Bool) : Int :=
  (minimaxPlainGas maxDepth (numEmpty b + 1) b depth isMax).getD 0

/-- Spec-side best move using the unpruned minimax, same selection
loop. -/
def getBestMovePlain (maxDepth : Nat) (b : Board) : Option (Fin 3 × Fin 3) :=
  pickBest
    (fun p => minimaxPlain maxDepth (setCell b p.1 p.2 (some Mark.O)) 0 false)
    (emptyCells b) negInf none

/-- Game-theoretic value of a position for the engine, in `{-1, 0, 1}`
(`1`: `O` can force a win, `0`: a draw, `-1`: `X` can force a win);
`isMax` tells whose turn it is (`true` = `O`).  Formalizes "optimal
play" and "already lost position" in the never-loses claim. -/
def gvalGas : Nat → Board → Bool → Option Int
  | 0, _, _ => none
  | gas + 1, b, isMax =>
    match checkWinnerAI b with
    | some Mark.O => some 1
    | some Mark.X => some (-1)
    | none =>
      if isBoardFull b then some 0
      else if isMax then
        optFoldMax (fun b' => gvalGas gas b' false) b Mark.O (emptyCells b) negInf
      else
        optFoldMin (fun b' => gvalGas gas b' true) b Mark.X (emptyCells b) posInf

/-- Total game value. -/
def gval (b : Board) (isMax : Bool) : Int :=
  (gvalGas (numEmpty b + 1) b isMax).getD 0

/-- `AIPlayer._get_max_depth`: dictionary lookup with default 9. -/
def getMaxDepth (difficulty : String) : Nat :=
  if difficulty = "Easy" then 1
  else if difficulty = "Medium" then 3
  else if difficulty = "Hard" then 6
  else if difficulty = "Impossible" then 9
  else 9

/-- `AIPlayer._get_mistake_probability`: dictionary lookup with default
0.0 (probabilities as exact rationals). -/
def mistakeProbability (difficulty : String) : ℚ :=
  if difficulty = "Easy" then 4 / 10
  else if difficulty = "Medium" then 15 / 100
  else if difficulty = "Hard" then 5 / 100
  else if difficulty = "Impossible" then 0
  else 0

/-- Oracle for the random draws of `get_move`: the `random.random()`
result used by the mistake check, the one used by the Easy coin flip,
and the `random.choice` selector. -/
structure RandSrc : Type where
  mistakeRoll : ℚ
  easyRoll : ℚ
  choice : List (Fin 3 × Fin 3) → Fin 3 × Fin 3

/-- `AIPlayer._get_random_move`: a random empty cell, or `none` on a
full board. -/
def getRandomMove (rnd : RandSrc) (b : Board) : Option (Fin 3 × Fin 3) :=
  if emptyCells b = [] then none else some (rnd.choice (emptyCells b))

/-- `AIPlayer._get_strategic_move`: centre if free, else a random empty
corner, else a random empty cell, else `none`. -/
def getStrategicMove (rnd : RandSrc) (b : Board) : Option (Fin 3 × Fin 3) :=
  if b 1 1 = none then some (1, 1)
  else
    let corners := [((0 : Fin 3), (0 : Fin 3)), (0, 2), (2, 0), (2, 2)]
    let emptyCorners := corners.filter fun p => (b p.1 p.2).isNone
    if emptyCorners ≠ [] then some (rnd.choice emptyCorners)
    else if emptyCells b ≠ [] then some (rnd.choice (emptyCells b))
    else none

/-- Common body of `_try_win_move` (`mk = O`) and `_try_block_move`
(`mk = X`): scan cells row-major; on each empty one, place `mk`, test
for an immediate `mk` win, put the cell back, and return the first
winning placement.  The board is threaded to model the in-place
mutate-and-restore of the source. -/
def tryMoveAux (mk : Mark) (b : Board) :
    List (Fin 3 × Fin 3) → Option (Fin 3 × Fin 3) × Board
  | [] => (none, b)
  | (r, c) :: rest =>
    if b r c = none then
      let b1 := setCell b r c (some mk)
      if checkWinnerAI b1 = some mk then (some (r, c), setCell b1 r c none)
      else tryMoveAux mk (setCell b1 r c none) rest
    else tryMoveAux mk b rest

/-- `AIPlayer._try_win_move`. -/
def tryWinMove (b : Board) : Option (Fin 3 × Fin 3) × Board :=
  tryMoveAux Mark.O b allCells

/-- `AIPlayer._try_block_move`. -/
def tryBlockMove (b : Board) : Option (Fin 3 × Fin 3) × Board :=
  tryMoveAux Mark.X b allCells

/-- `AIPlayer.get_move`: mistake branch first, then the per-tier
dispatch; the board is threaded through the mutate-and-restore helpers
and returned alongside the move. -/
def getMove (difficulty : String) (rnd : RandSrc) (b : Board) :
    Option (Fin 3 × Fin 3) × Board :=
  if rnd.mistakeRoll < mistakeProbability difficulty then (getRandomMove rnd b, b)
  else if difficulty = "Easy" then
    match tryMoveAux Mark.O b allCells with
    | (some m, b1) => (some m, b1)
    | (none, b1) =>
      if rnd.easyRoll < 1 / 2 then (getRandomMove rnd b1, b1)
      else (getStrategicMove rnd b1, b1)
  else if difficulty = "Medium" then
    match tryMoveAux Mark.O b allCells with
    | (some m, b1) => (some m, b1)
    | (none, b1) =>
      match tryMoveAux Mark.X b1 allCells with
      | (some m, b2) => (some m, b2)
      | (none, b2) => (getStrategicMove rnd b2, b2)
  else (getBestMove (getMaxDepth difficulty) b, b)

/-- Integer sign, used to compare depth-scaled minimax scores with the
`{-1, 0, 1}` game value. -/
def sgn (v : Int) : Int := if 0 < v then 1 else if v < 0 then -1 else 0

/-- The other player. -/
def other : Mark → Mark
  | Mark.X => Mark.O
  | Mark.O => Mark.X

/-- Whose turn maximizes the engine's score: `O` does. -/
def maxFor : Mark → Bool
  | Mark.X => false
  | Mark.O => true

/-- Board states reachable by legal alternating play from the empty
board (`X` first, marks only on empty cells, no move once the game is
won); the `Mark` is the player to move. -/
inductive Reach : Board → Mark → Prop
  | empty : Reach emptyBoard Mark.X
  | step {b : Board} {p : Mark} {r c : Fin 3} :
      Reach b p → b r c = none → checkWinnerAI b = none →
      Reach (setCell b r c (some p)) (other p)

/-- `X` plays optimally: the move is legal and the resulting position
is game-theoretically at least as bad for the engine as any other
legal move leads to. -/
def XOpt (b : Board) (m : Fin 3 × Fin 3) : Prop :=
  m ∈ emptyCells b ∧
  ∀ q ∈ emptyCells b,
    gval (setCell b m.1 m.2 (some Mark.X)) true ≤
      gval (setCell b q.1 q.2 (some Mark.X)) true

instance (b : Board) (m : Fin 3 × Fin 3) : Decidable (XOpt b m) := by
  unfold XOpt
  infer_instance

/-- One ply of the scenario of the never-loses claim: the
Impossible-tier engine (any oracle whose mistake roll is a genuine
`random.random()` outcome, i.e. nonnegative) plays `O`; `X` replies
with any optimal move.  Play only continues while nobody has won. -/
inductive GStep : Board × Mark → Board × Mark → Prop
  | oMove {b : Board} {m : Fin 3 × Fin 3} (rnd : RandSrc) :
      0 ≤ rnd.mistakeRoll → checkWinnerAI b = none →
      (getMove "Impossible" rnd b).1 = some m →
      GStep (b, Mark.O) (setCell b m.1 m.2 (some Mark.O), Mark.X)
  | xMove {b : Board} {m : Fin 3 × Fin 3} :
      checkWinnerAI b = none → XOpt b m →
      GStep (b, Mark.X) (setCell b m.1 m.2 (some Mark.X), Mark.O)

/-- The three cells of scan line `i` of the winner check: rows top to
bottom, then columns left to right, then main diagonal, then
anti-diagonal. -/
def lineAt : Fin 8 → (Fin 3 × Fin 3) × (Fin 3 × Fin 3) × (Fin 3 × Fin 3)
  | 0 => ((0, 0), (0, 1), (0, 2))
  | 1 => ((1, 0), (1, 1), (1, 2))
  | 2 => ((2, 0), (2, 1), (2, 2))
  | 3 => ((0, 0), (1, 0), (2, 0))
  | 4 => ((0, 1), (1, 1), (2, 1))
  | 5 => ((0, 2), (1, 2), (2, 2))
  | 6 => ((0, 0), (1, 1), (2, 2))
  | 7 => ((0, 2), (1, 1), (2, 0))

/-- Line `i` is completed by symbol `S`. -/
def lineFilled (b : Board) (i : Fin 8) (S : Mark) : Prop :=
  b (lineAt i).1.1 (lineAt i).1.2 = some S ∧
    b (lineAt i).2.1.1 (lineAt i).2.1.2 = some S ∧
    b (lineAt i).2.2.1 (lineAt i).2.2.2 = some S

instance (b : Board) (i : Fin 8) (S : Mark) : Decidable (lineFilled b i S) := by
  unfold lineFilled; infer_instance

/-- `GameState`, restricted to the fields the claims speak about. -/
structure GameState : Type where
  board : Board
  player : Mark

/-- `GameState.make_move`: place the current player's symbol when the
coordinates are in range and the cell is empty; report success. -/
def makeMove (gs : GameState) (row col : Int) : Bool × GameState :=
  if h : 0 ≤ row ∧ row < 3 ∧ 0 ≤ col ∧ col < 3 then
    let r : Fin 3 := ⟨row.toNat, by omega⟩
    let c : Fin 3 := ⟨col.toNat, by omega⟩
    if gs.board r c = none then
      (true, { gs with board := setCell gs.board r c (some gs.player) })
    else (false, gs)
  else (false, gs)

/-! ### Concrete inputs used by counterexamples and witnesses -/

/-- A fixed random oracle: both rolls `0` (a legal `random.random()`
outcome), `choice` picks `(0, 0)`. -/
def rnd0 : RandSrc := ⟨0, 0, fun _ => (0, 0)⟩

/-- Build a board from three row functions. -/
def mkBoard (r0 r1 r2 : Fin 3 → Cell) : Board :=
  fun r c => if r = 0 then r0 c else if r = 1 then r1 c else r2 c

/-- One row of a board literal. -/
def row3 (x y z : Cell) : Fin 3 → Cell :=
  fun c => if c = 0 then x else if c = 1 then y else z

/-- Top row all `O`, rest empty: an `O` win. -/
def rowOBoard : Board :=
  mkBoard (row3 (some Mark.O) (some Mark.O) (some Mark.O)) (row3 none none none)
    (row3 none none none)

/-- Top row all `X`, rest empty: an `X` win. -/
def rowXBoard : Board :=
  mkBoard (row3 (some Mark.X) (some Mark.X) (some Mark.X)) (row3 none none none)
    (row3 none none none)

/-- The classic full draw `X O X / O O X / X X O`. -/
def drawBoard : Board :=
  mkBoard (row3 (some Mark.X) (some Mark.O) (some Mark.X))
    (row3 (some Mark.O) (some Mark.O) (some Mark.X))
    (row3 (some Mark.X) (some Mark.X) (some Mark.O))

/-- A board with `O O _` in the top row: `O` has an immediate win at
`(0, 2)` and `X` has an immediate win to block at `(2, 1)`. -/
def winsBoard : Board :=
  mkBoard (row3 (some Mark.O) (some Mark.O) none) (row3 none none none)
    (row3 none (some Mark.X) (some Mark.X))

/-- A single `X` in the corner: no winner, far from full. -/
def oneXBoard : Board :=
  mkBoard (row3 (some Mark.X) none none) (row3 none none none) (row3 none none none)

/-- The reachable position `X(0,0), O(0,1), X(1,1)` with `O` to move:
`O` is already theoretically lost here. -/
def c1b0 : Board :=
  setCell (setCell (setCell emptyBoard 0 0 (some Mark.X)) 0 1 (some Mark.O))
    1 1 (some Mark.X)

/-- After the engine's reply `O(2,2)` from `c1b0`. -/
def c1b1 : Board := setCell c1b0 2 2 (some Mark.O)

/-- After `X`'s optimal `X(2,0)`: a double threat. -/
def c1b2 : Board := setCell c1b1 2 0 (some Mark.X)

/-- After the engine's reply `O(0,2)`. -/
def c1b3 : Board := setCell c1b2 0 2 (some Mark.O)

/-- After `X`'s optimal winning `X(1,0)`: `X` owns the left column. -/
def c1b4 : Board := setCell c1b3 1 0 (some Mark.X)

/-- A reachable position `X O X / O O X / X _ _` with `O` to move and
`O` not lost (`O` can win at `(2,1)`). -/
def c1wb : Board :=
  setCell (setCell (setCell (setCell (setCell (setCell (setCell emptyBoard
    0 0 (some Mark.X)) 0 1 (some Mark.O)) 0 2 (some Mark.X)) 1 0 (some Mark.O))
    1 2 (some Mark.X)) 1 1 (some Mark.O)) 2 0 (some Mark.X)

/-! ## Basic board lemmas -/

theorem mem_allCells (p : Fin 3 × Fin 3) : p ∈ allCells := by
  revert p; decide

theorem allCells_nodup : allCells.Nodup := by decide

theorem allCells_length : allCells.length = 9 := by decide

theorem mem_emptyCells {b : Board} {p : Fin 3 × Fin 3} :
    p ∈ emptyCells b ↔ b p.1 p.2 = none := by
  simp [emptyCells, List.mem_filter, mem_allCells, Option.isNone_iff_eq_none]

theorem setCell_self (b : Board) (r c : Fin 3) (v : Cell) :
    setCell b r c v r c = v := by
  simp [setCell]

theorem setCell_ne (b : Board) (r c : Fin 3) (v : Cell) {i j : Fin 3}
    (h : ¬(i = r ∧ j = c)) : setCell b r c v i j = b i j := by
  simp only [setCell, if_neg h]

theorem setCell_restore {b : Board} {r c : Fin 3} (v : Cell)
    (h : b r c = none) : setCell (setCell b r c v) r c none = b := by
  funext i j
  by_cases hij : i = r ∧ j = c
  · obtain ⟨hi, hj⟩ := hij; subst hi; subst hj
    simp [setCell, h]
  · simp [setCell, hij]

theorem emptyCells_setCell (b : Board) (r c : Fin 3) (v : Mark) :
    emptyCells (setCell b r c (some v)) =
      (emptyCells b).filter (fun p => p ≠ (r, c)) := by
  unfold emptyCells
  rw [List.filter_filter]
  apply List.filter_congr
  intro p _
  by_cases hp : p = (r, c)
  · subst hp
    simp [setCell]
  · have : ¬(p.1 = r ∧ p.2 = c) := by
      intro ⟨h1, h2⟩
      exact hp (Prod.ext h1 h2)
    simp [setCell_ne b r c _ this, hp]

theorem length_filter_ne_lt {α : Type} [DecidableEq α] {x : α} :
    ∀ {l : List α}, x ∈ l → (l.filter (fun p => p ≠ x)).length < l.length := by
  intro l
  induction l with
  | nil => intro h; cases h
  | cons a t ih =>
    intro hmem
    by_cases ha : a = x
    · subst ha
      have hle := List.length_filter_le (fun p => decide (p ≠ a)) t
      simp only [List.filter_cons]
      simp only [ne_eq, decide_not] at *
      simp
      omega
    · have hx : x ∈ t := by
        cases List.mem_cons.mp hmem with
        | inl h => exact absurd h.symm ha
        | inr h => exact h
      have := ih hx
      simp only [List.filter_cons]
      simp only [ne_eq, decide_not] at *
      simp [ha]
      omega

theorem numEmpty_setCell_lt {b : Board} {r c : Fin 3} (v : Mark)
    (h : b r c = none) :
    numEmpty (setCell b r c (some v)) < numEmpty b := by
  unfold numEmpty
  rw [emptyCells_setCell]
  exact length_filter_ne_lt (mem_emptyCells.mpr h)

theorem numEmpty_le_nine (b : Board) : numEmpty b ≤ 9 := by
  have := List.length_filter_le (fun p : Fin 3 × Fin 3 => (b p.1 p.2).isNone) allCells
  simpa [numEmpty, emptyCells, allCells_length] using this

theorem emptyCells_ne_nil_of_not_full {b : Board}
    (h : isBoardFull b = false) : emptyCells b ≠ [] := by
  unfold isBoardFull at h
  rw [List.all_eq_false] at h
  obtain ⟨p, hp, hps⟩ := h
  intro hnil
  have : p ∈ emptyCells b := mem_emptyCells.mpr (by
    cases hv : b p.1 p.2 with
    | none => rfl
    | some m => simp [hv] at hps)
  simp [hnil] at this

theorem not_full_of_mem_emptyCells {b : Board} {p : Fin 3 × Fin 3}
    (h : p ∈ emptyCells b) : isBoardFull b = false := by
  have hp := mem_emptyCells.mp h
  by_contra hfull
  have hfull' : isBoardFull b = true := by
    cases hfb : isBoardFull b
    · exact absurd hfb hfull
    · rfl
  unfold isBoardFull at hfull'
  rw [List.all_eq_true] at hfull'
  have := hfull' p (mem_allCells p)
  simp [hp] at this

/-! ## Fold lemmas -/

theorem optFoldMax_spec (rec : Board → Option Int) (b : Board) (mk : Mark) :
    ∀ (l : List (Fin 3 × Fin 3)) (best : Int),
    (∀ p ∈ l, ∃ v, rec (setCell b p.1 p.2 (some mk)) = some v) →
    ∃ r, optFoldMax rec b mk l best = some r ∧ best ≤ r ∧
      (∀ p ∈ l, ∀ v, rec (setCell b p.1 p.2 (some mk)) = some v → v ≤ r) ∧
      (r = best ∨ ∃ p ∈ l, rec (setCell b p.1 p.2 (some mk)) = some r) := by
  intro l
  induction l with
  | nil =>
    intro best _
    exact ⟨best, rfl, le_refl _, by simp, Or.inl rfl⟩
  | cons q rest ih =>
    intro best h
    obtain ⟨r, c⟩ := q
    obtain ⟨v, hv⟩ := h (r, c) (List.mem_cons_self _ _)
    obtain ⟨res, hres, hle, hub, hshape⟩ :=
      ih (max v best) (fun p hp => h p (List.mem_cons_of_mem _ hp))
    refine ⟨res, ?_, ?_, ?_, ?_⟩
    · simp only [optFoldMax, hv]
      exact hres
    · exact le_trans (le_max_right v best) hle
    · intro p hp w hw
      rcases List.mem_cons.mp hp with h1 | h1
      · subst h1
        rw [hv] at hw
        injection hw with hw'
        subst hw'
        exact le_trans (le_max_left v best) hle
      · exact hub p h1 w hw
    · rcases hshape with h1 | ⟨p, hp, hrec⟩
      · rcases le_total v best with h2 | h2
        · left; rw [h1]; exact max_eq_right h2
        · right
          refine ⟨(r, c), List.mem_cons_self _ _, ?_⟩
          rw [hv, h1, max_eq_left h2]
      · exact Or.inr ⟨p, List.mem_cons_of_mem _ hp, hrec⟩

theorem optFoldMin_spec (rec : Board → Option Int) (b : Board) (mk : Mark) :
    ∀ (l : List (Fin 3 × Fin 3)) (best : Int),
    (∀ p ∈ l, ∃ v, rec (setCell b p.1 p.2 (some mk)) = some v) →
    ∃ r, optFoldMin rec b mk l best = some r ∧ r ≤ best ∧
      (∀ p ∈ l, ∀ v, rec (setCell b p.1 p.2 (some mk)) = some v → r ≤ v) ∧
      (r = best ∨ ∃ p ∈ l, rec (setCell b p.1 p.2 (some mk)) = some r) := by
  intro l
  induction l with
  | nil =>
    intro best _
    exact ⟨best, rfl, le_refl _, by simp, Or.inl rfl⟩
  | cons q rest ih =>
    intro best h
    obtain ⟨r, c⟩ := q
    obtain ⟨v, hv⟩ := h (r, c) (List.mem_cons_self _ _)
    obtain ⟨res, hres, hle, hlb, hshape⟩ :=
      ih (min v best) (fun p hp => h p (List.mem_cons_of_mem _ hp))
    refine ⟨res, ?_, ?_, ?_, ?_⟩
    · simp only [optFoldMin, hv]
      exact hres
    · exact le_trans hle (min_le_right v best)
    · intro p hp w hw
      rcases List.mem_cons.mp hp with h1 | h1
      · subst h1
        rw [hv] at hw
        injection hw with hw'
        subst hw'
        exact le_trans hle (min_le_left v best)
      · exact hlb p h1 w hw
    · rcases hshape with h1 | ⟨p, hp, hrec⟩
      · rcases le_total v best with h2 | h2
        · right
          refine ⟨(r, c), List.mem_cons_self _ _, ?_⟩
          rw [hv, h1, min_eq_left h2]
        · left; rw [h1]; exact min_eq_right h2
      · exact Or.inr ⟨p, List.mem_cons_of_mem _ hp, hrec⟩

theorem optFoldMax_congr {rec₁ rec₂ : Board → Option Int} {b : Board} {mk : Mark} :
    ∀ (l : List (Fin 3 × Fin 3)) (best : Int),
    (∀ p ∈ l, rec₁ (setCell b p.1 p.2 (some mk)) = rec₂ (setCell b p.1 p.2 (some mk))) →
    optFoldMax rec₁ b mk l best = optFoldMax rec₂ b mk l best := by
  intro l
  induction l with
  | nil => intro best _; rfl
  | cons q rest ih =>
    intro best h
    obtain ⟨r, c⟩ := q
    have hq := h (r, c) (List.mem_cons_self _ _)
    simp only [optFoldMax, hq]
    cases rec₂ (setCell b r c (some mk)) with
    | none => rfl
    | some v => exact ih _ (fun p hp => h p (List.mem_cons_of_mem _ hp))

theorem optFoldMin_congr {rec₁ rec₂ : Board → Option Int} {b : Board} {mk : Mark} :
    ∀ (l : List (Fin 3 × Fin 3)) (best : Int),
    (∀ p ∈ l, rec₁ (setCell b p.1 p.2 (some mk)) = rec₂ (setCell b p.1 p.2 (some mk))) →
    optFoldMin rec₁ b mk l best = optFoldMin rec₂ b mk l best := by
  intro l
  induction l with
  | nil => intro best _; rfl
  | cons q rest ih =>
    intro best h
    obtain ⟨r, c⟩ := q
    have hq := h (r, c) (List.mem_cons_self _ _)
    simp only [optFoldMin, hq]
    cases rec₂ (setCell b r c (some mk)) with
    | none => rfl
    | some v => exact ih _ (fun p hp => h p (List.mem_cons_of_mem _ hp))

theorem abFoldMax_congr {rec₁ rec₂ : Board → Int → Int → Option Int} {b : Board} :
    ∀ (l : List (Fin 3 × Fin 3)) (alpha beta best : Int),
    (∀ p ∈ l, ∀ a bt, rec₁ (setCell b p.1 p.2 (some Mark.O)) a bt =
      rec₂ (setCell b p.1 p.2 (some Mark.O)) a bt) →
    abFoldMax rec₁ b l alpha beta best = abFoldMax rec₂ b l alpha beta best := by
  intro l
  induction l with
  | nil => intro alpha beta best _; rfl
  | cons q rest ih =>
    intro alpha beta best h
    obtain ⟨r, c⟩ := q
    have hq := h (r, c) (List.mem_cons_self _ _) alpha beta
    simp only [abFoldMax, hq]
    cases rec₂ (setCell b r c (some Mark.O)) alpha beta with
    | none => rfl
    | some v =>
      by_cases hcut : beta ≤ max alpha v
      · simp [hcut]
      · simp only [hcut, if_false]
        exact ih _ _ _ (fun p hp => h p (List.mem_cons_of_mem _ hp))

theorem abFoldMin_congr {rec₁ rec₂ : Board → Int → Int → Option Int} {b : Board} :
    ∀ (l : List (Fin 3 × Fin 3)) (alpha beta best : Int),
    (∀ p ∈ l, ∀ a bt, rec₁ (setCell b p.1 p.2 (some Mark.X)) a bt =
      rec₂ (setCell b p.1 p.2 (some Mark.X)) a bt) →
    abFoldMin rec₁ b l alpha beta best = abFoldMin rec₂ b l alpha beta best := by
  intro l
  induction l with
  | nil => intro alpha beta best _; rfl
  | cons q rest ih =>
    intro alpha beta best h
    obtain ⟨r, c⟩ := q
    have hq := h (r, c) (List.mem_cons_self _ _) alpha beta
    simp only [abFoldMin, hq]
    cases rec₂ (setCell b r c (some Mark.X)) alpha beta with
    | none => rfl
    | some v =>
      by_cases hcut : min beta v ≤ alpha
      · simp [hcut]
      · simp only [hcut, if_false]
        exact ih _ _ _ (fun p hp => h p (List.mem_cons_of_mem _ hp))

theorem abFoldMax_isSome {rec : Board → Int → Int → Option Int} {b : Board} :
    ∀ (l : List (Fin 3 × Fin 3)),
    (∀ p ∈ l, ∀ a bt, (rec (setCell b p.1 p.2 (some Mark.O)) a bt).isSome) →
    ∀ (alpha beta best : Int), (abFoldMax rec b l alpha beta best).isSome := by
  intro l
  induction l with
  | nil => intro _ alpha beta best; rfl
  | cons q rest ih =>
    intro h alpha beta best
    obtain ⟨r, c⟩ := q
    have hq := h (r, c) (List.mem_cons_self _ _) alpha beta
    simp only [abFoldMax]
    cases hv : rec (setCell b r c (some Mark.O)) alpha beta with
    | none => rw [hv] at hq; cases hq
    | some v =>
      by_cases hcut : beta ≤ max alpha v
      · simp [hcut]
      · simp only [hcut, if_false]
        exact ih (fun p hp => h p (List.mem_cons_of_mem _ hp)) _ _ _

theorem abFoldMin_isSome {rec : Board → Int → Int → Option Int} {b : Board} :
    ∀ (l : List (Fin 3 × Fin 3)),
    (∀ p ∈ l, ∀ a bt, (rec (setCell b p.1 p.2 (some Mark.X)) a bt).isSome) →
    ∀ (alpha beta best : Int), (abFoldMin rec b l alpha beta best).isSome := by
  intro l
  induction l with
  | nil => intro _ alpha beta best; rfl
  | cons q rest ih =>
    intro h alpha beta best
    obtain ⟨r, c⟩ := q
    have hq := h (r, c) (List.mem_cons_self _ _) alpha beta
    simp only [abFoldMin]
    cases hv : rec (setCell b r c (some Mark.X)) alpha beta with
    | none => rw [hv] at hq; cases hq
    | some v =>
      by_cases hcut : min beta v ≤ alpha
      · simp [hcut]
      · simp only [hcut, if_false]
        exact ih (fun p hp => h p (List.mem_cons_of_mem _ hp)) _ _ _

/-! ## Gas sufficiency and irrelevance: the search terminates -/

theorem minimaxGas_isSome (maxDepth : Nat) :
    ∀ (gas : Nat) (b : Board) (depth : Nat) (isMax : Bool) (alpha beta : Int),
    numEmpty b < gas → (minimaxGas maxDepth gas b depth isMax alpha beta).isSome := by
  intro gas
  induction gas with
  | zero => intro b depth isMax alpha beta h; omega
  | succ gas ih =>
    intro b depth isMax alpha beta h
    simp only [minimaxGas]
    have hch : ∀ p ∈ emptyCells b, ∀ (d' : Nat) (m' : Bool) (a bt : Int),
        (minimaxGas maxDepth gas (setCell b p.1 p.2 (some Mark.O)) d' m' a bt).isSome ∧
        (minimaxGas maxDepth gas (setCell b p.1 p.2 (some Mark.X)) d' m' a bt).isSome := by
      intro p hp d' m' a bt
      have hpn := mem_emptyCells.mp hp
      constructor
      · exact ih _ d' m' a bt (by have := numEmpty_setCell_lt Mark.O hpn; omega)
      · exact ih _ d' m' a bt (by have := numEmpty_setCell_lt Mark.X hpn; omega)
    cases hw : checkWinnerAI b with
    | some mk => cases mk <;> rfl
    | none =>
      by_cases hf : isBoardFull b
      · simp [hf]
      · simp only [hf, Bool.false_eq_true, if_false]
        by_cases hd : maxDepth ≤ depth
        · simp [hd]
        · simp only [hd, if_false]
          cases isMax with
          | true =>
            simp only [if_true]
            exact abFoldMax_isSome _ (fun p hp a bt => (hch p hp _ _ a bt).1) _ _ _
          | false =>
            simp only [Bool.false_eq_true, if_false]
            exact abFoldMin_isSome _ (fun p hp a bt => (hch p hp _ _ a bt).2) _ _ _

theorem minimaxGas_irrel (maxDepth : Nat) :
    ∀ (gas₁ gas₂ : Nat) (b : Board) (depth : Nat) (isMax : Bool) (alpha beta : Int),
    numEmpty b < gas₁ → numEmpty b < gas₂ →
    minimaxGas maxDepth gas₁ b depth isMax alpha beta =
      minimaxGas maxDepth gas₂ b depth isMax alpha beta := by
  intro gas₁
  induction gas₁ with
  | zero => intro gas₂ b depth isMax alpha beta h1 _; omega
  | succ gas₁ ih =>
    intro gas₂ b depth isMax alpha beta h1 h2
    cases gas₂ with
    | zero => omega
    | succ gas₂ =>
      simp only [minimaxGas]
      cases hw : checkWinnerAI b with
      | some mk => cases mk <;> rfl
      | none =>
        by_cases hf : isBoardFull b
        · simp [hf]
        · simp only [hf, Bool.false_eq_true, if_false]
          by_cases hd : maxDepth ≤ depth
          · simp [hd]
          · simp only [hd, if_false]
            have hch : ∀ (p : Fin 3 × Fin 3), p ∈ emptyCells b → ∀ (mk : Mark)
                (d' : Nat) (m' : Bool) (a bt : Int),
                minimaxGas maxDepth gas₁ (setCell b p.1 p.2 (some mk)) d' m' a bt =
                  minimaxGas maxDepth gas₂ (setCell b p.1 p.2 (some mk)) d' m' a bt := by
              intro p hp mk d' m' a bt
              have hpn := mem_emptyCells.mp hp
              have hlt := numEmpty_setCell_lt mk hpn
              exact ih gas₂ _ d' m' a bt (by omega) (by omega)
            cases isMax with
            | true =>
              simp only [if_true]
              exact abFoldMax_congr _ _ _ _ (fun p hp a bt => hch p hp Mark.O _ _ a bt)
            | false =>
              simp only [Bool.false_eq_true, if_false]
              exact abFoldMin_congr _ _ _ _ (fun p hp a bt => hch p hp Mark.X _ _ a bt)

/-- Gas above the number of empty cells always yields the defined total
value: the search recursion terminates within `numEmpty b` nested
placements. -/
theorem minimaxGas_eq_minimax (maxDepth : Nat) {gas : Nat} (b : Board)
    (depth : Nat) (isMax : Bool) (alpha beta : Int) (h : numEmpty b < gas) :
    minimaxGas maxDepth gas b depth isMax alpha beta =
      some (minimax maxDepth b depth isMax alpha beta) := by
  unfold minimax
  rw [minimaxGas_irrel maxDepth gas (numEmpty b + 1) b depth isMax alpha beta h
    (Nat.lt_succ_self _)]
  obtain ⟨v, hv⟩ := Option.isSome_iff_exists.mp
    (minimaxGas_isSome maxDepth (numEmpty b + 1) b depth isMax alpha beta
      (Nat.lt_succ_self _))
  rw [hv]
  rfl

theorem minimaxPlainGas_isSome (maxDepth : Nat) :
    ∀ (gas : Nat) (b : Board) (depth : Nat) (isMax : Bool),
    numEmpty b < gas → (minimaxPlainGas maxDepth gas b depth isMax).isSome := by
  intro gas
  induction gas with
  | zero => intro b depth isMax h; omega
  | succ gas ih =>
    intro b depth isMax h
    simp only [minimaxPlainGas]
    have hch : ∀ (mk : Mark), ∀ p ∈ emptyCells b, ∀ (d' : Nat) (m' : Bool),
        ∃ v, minimaxPlainGas maxDepth gas (setCell b p.1 p.2 (some mk)) d' m' = some v := by
      intro mk p hp d' m'
      have hpn := mem_emptyCells.mp hp
      have := ih (setCell b p.1 p.2 (some mk)) d' m'
        (by have := numEmpty_setCell_lt mk hpn; omega)
      exact Option.isSome_iff_exists.mp this
    cases hw : checkWinnerAI b with
    | some mk => cases mk <;> rfl
    | none =>
      by_cases hf : isBoardFull b
      · simp [hf]
      · simp only [hf, Bool.false_eq_true, if_false]
        by_cases hd : maxDepth ≤ depth
        · simp [hd]
        · simp only [hd, if_false]
          cases isMax with
          | true =>
            simp only [if_true]
            obtain ⟨r, hr, -⟩ := optFoldMax_spec
              (fun b' => minimaxPlainGas maxDepth gas b' (depth + 1) false) b Mark.O
              (emptyCells b) negInf (fun p hp => hch Mark.O p hp _ _)
            rw [hr]; rfl
          | false =>
            simp only [Bool.false_eq_true, if_false]
            obtain ⟨r, hr, -⟩ := optFoldMin_spec
              (fun b' => minimaxPlainGas maxDepth gas b' (depth + 1) true) b Mark.X
              (emptyCells b) posInf (fun p hp => hch Mark.X p hp _ _)
            rw [hr]; rfl

theorem minimaxPlainGas_irrel (maxDepth : Nat) :
    ∀ (gas₁ gas₂ : Nat) (b : Board) (depth : Nat) (isMax : Bool),
    numEmpty b < gas₁ → numEmpty b < gas₂ →
    minimaxPlainGas maxDepth gas₁ b depth isMax =
      minimaxPlainGas maxDepth gas₂ b depth isMax := by
  intro gas₁
  induction gas₁ with
  | zero => intro gas₂ b depth isMax h1 _; omega
  | succ gas₁ ih =>
    intro gas₂ b depth isMax h1 h2
    cases gas₂ with
    | zero => omega
    | succ gas₂ =>
      simp only [minimaxPlainGas]
      cases hw : checkWinnerAI b with
      | some mk => cases mk <;> rfl
      | none =>
        by_cases hf : isBoardFull b
        · simp [hf]
        · simp only [hf, Bool.false_eq_true, if_false]
          by_cases hd : maxDepth ≤ depth
          · simp [hd]
          · simp only [hd, if_false]
            have hch : ∀ (p : Fin 3 × Fin 3), p ∈ emptyCells b → ∀ (mk : Mark)
                (d' : Nat) (m' : Bool),
                minimaxPlainGas maxDepth gas₁ (setCell b p.1 p.2 (some mk)) d' m' =
                  minimaxPlainGas maxDepth gas₂ (setCell b p.1 p.2 (some mk)) d' m' := by
              intro p hp mk d' m'
              have hpn := mem_emptyCells.mp hp
              have hlt := numEmpty_setCell_lt mk hpn
              exact ih gas₂ _ d' m' (by omega) (by omega)
            cases isMax with
            | true =>
              simp only [if_true]
              exact optFoldMax_congr _ _ (fun p hp => hch p hp Mark.O _ _)
            | false =>
              simp only [Bool.false_eq_true, if_false]
              exact optFoldMin_congr _ _ (fun p hp => hch p hp Mark.X _ _)

theorem minimaxPlainGas_eq (maxDepth : Nat) {gas : Nat} (b : Board)
    (depth : Nat) (isMax : Bool) (h : numEmpty b < gas) :
    minimaxPlainGas maxDepth gas b depth isMax =
      some (minimaxPlain maxDepth b depth isMax) := by
  unfold minimaxPlain
  rw [minimaxPlainGas_irrel maxDepth gas (numEmpty b + 1) b depth isMax h
    (Nat.lt_succ_self _)]
  obtain ⟨v, hv⟩ := Option.isSome_iff_exists.mp
    (minimaxPlainGas_isSome maxDepth (numEmpty b + 1) b depth isMax (Nat.lt_succ_self _))
  rw [hv]
  rfl

theorem gvalGas_isSome :
    ∀ (gas : Nat) (b : Board) (isMax : Bool),
    numEmpty b < gas → (gvalGas gas b isMax).isSome := by
  intro gas
  induction gas with
  | zero => intro b isMax h; omega
  | succ gas ih =>
    intro b isMax h
    simp only [gvalGas]
    have hch : ∀ (mk : Mark), ∀ p ∈ emptyCells b, ∀ (m' : Bool),
        ∃ v, gvalGas gas (setCell b p.1 p.2 (some mk)) m' = some v := by
      intro mk p hp m'
      have hpn := mem_emptyCells.mp hp
      exact Option.isSome_iff_exists.mp
        (ih _ m' (by have := numEmpty_setCell_lt mk hpn; omega))
    cases hw : checkWinnerAI b with
    | some mk => cases mk <;> rfl
    | none =>
      by_cases hf : isBoardFull b
      · simp [hf]
      · simp only [hf, Bool.false_eq_true, if_false]
        cases isMax with
        | true =>
          simp only [if_true]
          obtain ⟨r, hr, -⟩ := optFoldMax_spec
            (fun b' => gvalGas gas b' false) b Mark.O
            (emptyCells b) negInf (fun p hp => hch Mark.O p hp _)
          rw [hr]; rfl
        | false =>
          simp only [Bool.false_eq_true, if_false]
          obtain ⟨r, hr, -⟩ := optFoldMin_spec
            (fun b' => gvalGas gas b' true) b Mark.X
            (emptyCells b) posInf (fun p hp => hch Mark.X p hp _)
          rw [hr]; rfl

theorem gvalGas_irrel :
    ∀ (gas₁ gas₂ : Nat) (b : Board) (isMax : Bool),
    numEmpty b < gas₁ → numEmpty b < gas₂ →
    gvalGas gas₁ b isMax = gvalGas gas₂ b isMax := by
  intro gas₁
  induction gas₁ with
  | zero => intro gas₂ b isMax h1 _; omega
  | succ gas₁ ih =>
    intro gas₂ b isMax h1 h2
    cases gas₂ with
    | zero => omega
    | succ gas₂ =>
      simp only [gvalGas]
      cases hw : checkWinnerAI b with
      | some mk => cases mk <;> rfl
      | none =>
        by_cases hf : isBoardFull b
        · simp [hf]
        · simp only [hf, Bool.false_eq_true, if_false]
          have hch : ∀ (p : Fin 3 × Fin 3), p ∈ emptyCells b → ∀ (mk : Mark) (m' : Bool),
              gvalGas gas₁ (setCell b p.1 p.2 (some mk)) m' =
                gvalGas gas₂ (setCell b p.1 p.2 (some mk)) m' := by
            intro p hp mk m'
            have hpn := mem_emptyCells.mp hp
            have hlt := numEmpty_setCell_lt mk hpn
            exact ih gas₂ _ m' (by omega) (by omega)
          cases isMax with
          | true =>
            simp only [if_true]
            exact optFoldMax_congr _ _ (fun p hp => hch p hp Mark.O _)
          | false =>
            simp only [Bool.false_eq_true, if_false]
            exact optFoldMin_congr _ _ (fun p hp => hch p hp Mark.X _)

theorem gvalGas_eq {gas : Nat} (b : Board) (isMax : Bool) (h : numEmpty b < gas) :
    gvalGas gas b isMax = some (gval b isMax) := by
  unfold gval
  rw [gvalGas_irrel gas (numEmpty b + 1) b isMax h (Nat.lt_succ_self _)]
  obtain ⟨v, hv⟩ := Option.isSome_iff_exists.mp
    (gvalGas_isSome (numEmpty b + 1) b isMax (Nat.lt_succ_self _))
  rw [hv]
  rfl

/-! ## Score bounds and the sign function -/

theorem optFoldMax_some_inv {rec : Board → Option Int} {b : Board} {mk : Mark} :
    ∀ {l : List (Fin 3 × Fin 3)} {best r : Int},
    optFoldMax rec b mk l best = some r →
    ∀ p ∈ l, ∃ w, rec (setCell b p.1 p.2 (some mk)) = some w := by
  intro l
  induction l with
  | nil => intro best r _ p hp; cases hp
  | cons q rest ih =>
    intro best r hfold p hp
    obtain ⟨rr, cc⟩ := q
    simp only [optFoldMax] at hfold
    cases hv : rec (setCell b rr cc (some mk)) with
    | none => rw [hv] at hfold; cases hfold
    | some w =>
      rw [hv] at hfold
      rcases List.mem_cons.mp hp with h1 | h1
      · subst h1; exact ⟨w, hv⟩
      · exact ih hfold p h1

theorem optFoldMin_some_inv {rec : Board → Option Int} {b : Board} {mk : Mark} :
    ∀ {l : List (Fin 3 × Fin 3)} {best r : Int},
    optFoldMin rec b mk l best = some r →
    ∀ p ∈ l, ∃ w, rec (setCell b p.1 p.2 (some mk)) = some w := by
  intro l
  induction l with
  | nil => intro best r _ p hp; cases hp
  | cons q rest ih =>
    intro best r hfold p hp
    obtain ⟨rr, cc⟩ := q
    simp only [optFoldMin] at hfold
    cases hv : rec (setCell b rr cc (some mk)) with
    | none => rw [hv] at hfold; cases hfold
    | some w =>
      rw [hv] at hfold
      rcases List.mem_cons.mp hp with h1 | h1
      · subst h1; exact ⟨w, hv⟩
      · exact ih hfold p h1

theorem minimaxPlainGas_bound (maxDepth : Nat) (hmd : maxDepth ≤ 9) :
    ∀ (gas : Nat) (b : Board) (depth : Nat) (isMax : Bool) (v : Int),
    depth ≤ maxDepth → minimaxPlainGas maxDepth gas b depth isMax = some v →
    -10 ≤ v ∧ v ≤ 10 := by
  intro gas
  induction gas with
  | zero => intro b depth isMax v _ hv; cases hv
  | succ gas ih =>
    intro b depth isMax v hdep hv
    simp only [minimaxPlainGas] at hv
    cases hw : checkWinnerAI b with
    | some mk =>
      rw [hw] at hv
      cases mk <;> (injection hv with hv'; omega)
    | none =>
      rw [hw] at hv
      by_cases hf : isBoardFull b
      · simp only [hf, if_true] at hv
        injection hv with hv'; omega
      · simp only [hf, Bool.false_eq_true, if_false] at hv
        by_cases hd : maxDepth ≤ depth
        · simp only [hd, if_true] at hv
          injection hv with hv'; omega
        · simp only [hd, if_false] at hv
          have hne := emptyCells_ne_nil_of_not_full
            (by cases hfb : isBoardFull b; rfl; exact absurd hfb hf)
          obtain ⟨p0, hp0⟩ := List.exists_mem_of_ne_nil _ hne
          have hdep' : depth + 1 ≤ maxDepth := by omega
          cases isMax with
          | true =>
            simp only [if_true] at hv
            have hch := optFoldMax_some_inv hv
            obtain ⟨r, hr, hbr, hub, hshape⟩ := optFoldMax_spec
              (fun b' => minimaxPlainGas maxDepth gas b' (depth + 1) false) b Mark.O
              (emptyCells b) negInf hch
            rw [hv] at hr
            injection hr with hr'
            subst hr'
            obtain ⟨w0, hw0⟩ := hch p0 hp0
            have hb0 := ih _ _ _ _ hdep' hw0
            have hle0 := hub p0 hp0 w0 hw0
            rcases hshape with h1 | ⟨p, hp, hrec⟩
            · rw [h1] at hle0; unfold negInf at h1; omega
            · have := ih _ _ _ _ hdep' hrec
              omega
          | false =>
            simp only [Bool.false_eq_true, if_false] at hv
            have hch := optFoldMin_some_inv hv
            obtain ⟨r, hr, hbr, hlb, hshape⟩ := optFoldMin_spec
              (fun b' => minimaxPlainGas maxDepth gas b' (depth + 1) true) b Mark.X
              (emptyCells b) posInf hch
            rw [hv] at hr
            injection hr with hr'
            subst hr'
            obtain ⟨w0, hw0⟩ := hch p0 hp0
            have hb0 := ih _ _ _ _ hdep' hw0
            have hle0 := hlb p0 hp0 w0 hw0
            rcases hshape with h1 | ⟨p, hp, hrec⟩
            · rw [h1] at hle0; unfold posInf at h1; omega
            · have := ih _ _ _ _ hdep' hrec
              omega

theorem gvalGas_bound :
    ∀ (gas : Nat) (b : Board) (isMax : Bool) (v : Int),
    gvalGas gas b isMax = some v → -1 ≤ v ∧ v ≤ 1 := by
  intro gas
  induction gas with
  | zero => intro b isMax v hv; cases hv
  | succ gas ih =>
    intro b isMax v hv
    simp only [gvalGas] at hv
    cases hw : checkWinnerAI b with
    | some mk =>
      rw [hw] at hv
      cases mk <;> (injection hv with hv'; omega)
    | none =>
      rw [hw] at hv
      by_cases hf : isBoardFull b
      · simp only [hf, if_true] at hv
        injection hv with hv'; omega
      · simp only [hf, Bool.false_eq_true, if_false] at hv
        have hne := emptyCells_ne_nil_of_not_full
          (by cases hfb : isBoardFull b; rfl; exact absurd hfb hf)
        obtain ⟨p0, hp0⟩ := List.exists_mem_of_ne_nil _ hne
        cases isMax with
        | true =>
          simp only [if_true] at hv
          have hch := optFoldMax_some_inv hv
          obtain ⟨r, hr, hbr, hub, hshape⟩ := optFoldMax_spec
            (fun b' => gvalGas gas b' false) b Mark.O
            (emptyCells b) negInf hch
          rw [hv] at hr
          injection hr with hr'
          subst hr'
          obtain ⟨w0, hw0⟩ := hch p0 hp0
          have hb0 := ih _ _ _ hw0
          have hle0 := hub p0 hp0 w0 hw0
          rcases hshape with h1 | ⟨p, hp, hrec⟩
          · rw [h1] at hle0; unfold negInf at h1; omega
          · have := ih _ _ _ hrec
            omega
        | false =>
          simp only [Bool.false_eq_true, if_false] at hv
          have hch := optFoldMin_some_inv hv
          obtain ⟨r, hr, hbr, hlb, hshape⟩ := optFoldMin_spec
            (fun b' => gvalGas gas b' true) b Mark.X
            (emptyCells b) posInf hch
          rw [hv] at hr
          injection hr with hr'
          subst hr'
          obtain ⟨w0, hw0⟩ := hch p0 hp0
          have hb0 := ih _ _ _ hw0
          have hle0 := hlb p0 hp0 w0 hw0
          rcases hshape with h1 | ⟨p, hp, hrec⟩
          · rw [h1] at hle0; unfold posInf at h1; omega
          · have := ih _ _ _ hrec
            omega

theorem sgn_mono : ∀ {a b : Int}, a ≤ b → sgn a ≤ sgn b := by
  intro a b h
  unfold sgn
  split_ifs <;> omega

theorem sgn_nonneg_iff {a : Int} : 0 ≤ sgn a ↔ 0 ≤ a := by
  unfold sgn
  split_ifs <;> omega

/-! ## Alpha-beta soundness: the Knuth-Moore window invariant -/

/-- Relation between the true (unpruned) value `v` of a subtree and the
result `r` of the alpha-beta search of that subtree within the window
`(a, beta)`: inside the window the result is exact, a fail-low result
bounds the value from above, a fail-high result bounds it from
below. -/
def KMrel (v r a beta : Int) : Prop :=
  (r ≤ a → v ≤ r) ∧ (a < r → r < beta → r = v) ∧ (beta ≤ r → r ≤ v)

theorem KMrel_refl (v a beta : Int) : KMrel v v a beta :=
  ⟨fun _ => le_refl v, fun _ _ => rfl, fun _ => le_refl v⟩

theorem abFoldMax_KM (recP : Board → Int → Int → Option Int)
    (recV : Board → Option Int) (b : Board) (beta : Int) :
    ∀ (l : List (Fin 3 × Fin 3)),
    (∀ p ∈ l, ∀ a, negInf ≤ a → a < beta →
      ∃ s v, recP (setCell b p.1 p.2 (some Mark.O)) a beta = some s ∧
        recV (setCell b p.1 p.2 (some Mark.O)) = some v ∧ KMrel v s a beta) →
    ∀ (a bestP bestV : Int), negInf ≤ a → a < beta → bestP ≤ a → bestV ≤ bestP →
    ∃ r pv, abFoldMax recP b l a beta bestP = some r ∧
      optFoldMax recV b Mark.O l bestV = some pv ∧
      bestV ≤ pv ∧ KMrel pv r a beta := by
  intro l
  induction l with
  | nil =>
    intro _ a bestP bestV _ hab hpa hvp
    exact ⟨bestP, bestV, rfl, rfl, le_refl _,
      fun _ => hvp, fun h _ => absurd hpa (not_le.mpr h), fun h => by omega⟩
  | cons q rest ih =>
    intro hch a bestP bestV hna hab hpa hvp
    obtain ⟨rr, cc⟩ := q
    obtain ⟨s, v, hs, hv, hG⟩ := hch (rr, cc) (List.mem_cons_self _ _) a hna hab
    have hchrest : ∀ p ∈ rest, ∀ a', negInf ≤ a' → a' < beta →
        ∃ s' v', recP (setCell b p.1 p.2 (some Mark.O)) a' beta = some s' ∧
          recV (setCell b p.1 p.2 (some Mark.O)) = some v' ∧ KMrel v' s' a' beta :=
      fun p hp => hch p (List.mem_cons_of_mem _ hp)
    by_cases hcut : beta ≤ max a s
    · -- early break: the head child failed high
      have has : a < s := by
        rcases max_cases a s with ⟨he, _⟩ | ⟨he, hle⟩
        · rw [he] at hcut; omega
        · omega
      have hsb : beta ≤ s := by
        rcases max_cases a s with ⟨he, _⟩ | ⟨he, _⟩ <;> rw [he] at hcut <;> omega
      have hrbest : max s bestP = s := max_eq_left (by omega)
      have hrest_some : ∀ p ∈ rest, ∃ w,
          recV (setCell b p.1 p.2 (some Mark.O)) = some w := by
        intro p hp
        obtain ⟨s', v', _, hv', _⟩ := hchrest p hp a hna hab
        exact ⟨v', hv'⟩
      obtain ⟨pv, hpv, hbv, -, -⟩ := optFoldMax_spec recV b Mark.O rest (max v bestV)
        hrest_some
      refine ⟨max s bestP, pv, ?_, ?_, ?_, ?_⟩
      · simp only [abFoldMax, hs, hcut, if_true]
      · simp only [optFoldMax, hv]
        exact hpv
      · exact le_trans (le_max_right v bestV) hbv
      · rw [hrbest]
        have hsv : s ≤ v := hG.2.2 hsb
        refine ⟨fun h => by omega, fun _ h => by omega, fun _ => ?_⟩
        exact le_trans hsv (le_trans (le_max_left v bestV) hbv)
    · -- no break: continue the fold
      push_neg at hcut
      by_cases hsle : s ≤ a
      · -- head child failed low: its value is dominated
        have hva : v ≤ s := hG.1 hsle
        have hmaxa : max a s = a := max_eq_left hsle
        obtain ⟨r, pv, hr, hpv, hbv, hG'⟩ := ih hchrest a (max s bestP) (max v bestV)
          hna hab (max_le hsle hpa) (max_le_max hva hvp)
        refine ⟨r, pv, ?_, ?_, ?_, hG'⟩
        · simp only [abFoldMax, hs]
          rw [if_neg (by rw [hmaxa]; omega), hmaxa]
          exact hr
        · simp only [optFoldMax, hv]
          exact hpv
        · exact le_trans (le_max_right v bestV) hbv
      · -- head child scored inside the window: exact value
        push_neg at hsle
        have hsb : s < beta := (max_lt_iff.mp hcut).2
        have hsv : s = v := hG.2.1 hsle hsb
        have hmaxs : max a s = s := max_eq_right (by omega)
        obtain ⟨r, pv, hr, hpv, hbv, hG'⟩ := ih hchrest s (max s bestP) (max v bestV)
          (by omega) hsb (max_le (le_refl s) (by omega))
          (by rw [← hsv]; exact max_le_max (le_refl s) hvp)
        refine ⟨r, pv, ?_, ?_, ?_, ?_⟩
        · simp only [abFoldMax, hs]
          rw [if_neg (by rw [hmaxs]; omega), hmaxs]
          exact hr
        · simp only [optFoldMax, hv]
          exact hpv
        · exact le_trans (le_max_right v bestV) hbv
        · have hspv : s ≤ pv :=
            le_trans (by rw [hsv]; exact le_max_left v bestV) hbv
          refine ⟨fun h => hG'.1 (by omega), fun h1 h2 => ?_, fun h => hG'.2.2 h⟩
          rcases le_or_lt r s with h3 | h3
          · have := hG'.1 h3
            omega
          · exact hG'.2.1 h3 h2

theorem abFoldMin_KM (recP : Board → Int → Int → Option Int)
    (recV : Board → Option Int) (b : Board) (a : Int) :
    ∀ (l : List (Fin 3 × Fin 3)),
    (∀ p ∈ l, ∀ bt, bt ≤ posInf → a < bt →
      ∃ s v, recP (setCell b p.1 p.2 (some Mark.X)) a bt = some s ∧
        recV (setCell b p.1 p.2 (some Mark.X)) = some v ∧ KMrel v s a bt) →
    ∀ (beta bestP bestV : Int), beta ≤ posInf → a < beta → beta ≤ bestP → bestP ≤ bestV →
    ∃ r pv, abFoldMin recP b l a beta bestP = some r ∧
      optFoldMin recV b Mark.X l bestV = some pv ∧
      pv ≤ bestV ∧ KMrel pv r a beta := by
  intro l
  induction l with
  | nil =>
    intro _ beta bestP bestV _ hab hbp hpv
    exact ⟨bestP, bestV, rfl, rfl, le_refl _,
      fun h => by omega, fun _ h => by omega, fun _ => hpv⟩
  | cons q rest ih =>
    intro hch beta bestP bestV hbi hab hbp hvp
    obtain ⟨rr, cc⟩ := q
    obtain ⟨s, v, hs, hv, hG⟩ := hch (rr, cc) (List.mem_cons_self _ _) beta hbi hab
    have hchrest : ∀ p ∈ rest, ∀ bt, bt ≤ posInf → a < bt →
        ∃ s' v', recP (setCell b p.1 p.2 (some Mark.X)) a bt = some s' ∧
          recV (setCell b p.1 p.2 (some Mark.X)) = some v' ∧ KMrel v' s' a bt :=
      fun p hp => hch p (List.mem_cons_of_mem _ hp)
    by_cases hcut : min beta s ≤ a
    · -- early break: the head child failed low
      have hsa : s ≤ a := by
        rcases min_cases beta s with ⟨he, _⟩ | ⟨he, _⟩ <;> rw [he] at hcut <;> omega
      have hrbest : min s bestP = s := min_eq_left (by omega)
      have hrest_some : ∀ p ∈ rest, ∃ w,
          recV (setCell b p.1 p.2 (some Mark.X)) = some w := by
        intro p hp
        obtain ⟨s', v', _, hv', _⟩ := hchrest p hp beta hbi hab
        exact ⟨v', hv'⟩
      obtain ⟨pv, hpv, hbv, -, -⟩ := optFoldMin_spec recV b Mark.X rest (min v bestV)
        hrest_some
      refine ⟨min s bestP, pv, ?_, ?_, ?_, ?_⟩
      · simp only [abFoldMin, hs, hcut, if_true]
      · simp only [optFoldMin, hv]
        exact hpv
      · exact le_trans hbv (min_le_right v bestV)
      · rw [hrbest]
        have hvs : v ≤ s := hG.1 hsa
        refine ⟨fun _ => ?_, fun h _ => by omega, fun h => by omega⟩
        exact le_trans (le_trans hbv (min_le_left v bestV)) hvs
    · -- no break: continue the fold
      push_neg at hcut
      by_cases hbs : beta ≤ s
      · -- head child failed high: its value is dominated
        have hsv' : s ≤ v := hG.2.2 hbs
        have hmins : min beta s = beta := min_eq_left hbs
        obtain ⟨r, pv, hr, hpv, hbv, hG'⟩ := ih hchrest beta (min s bestP) (min v bestV)
          hbi hab (le_min hbs hbp) (min_le_min hsv' hvp)
        refine ⟨r, pv, ?_, ?_, ?_, hG'⟩
        · simp only [abFoldMin, hs]
          rw [if_neg (by rw [hmins]; omega), hmins]
          exact hr
        · simp only [optFoldMin, hv]
          exact hpv
        · exact le_trans hbv (min_le_right v bestV)
      · -- head child scored inside the window: exact value
        push_neg at hbs
        have has : a < s := lt_of_lt_of_le hcut (min_le_right beta s)
        have hsv : s = v := hG.2.1 has hbs
        have hmins : min beta s = s := min_eq_right (le_of_lt hbs)
        obtain ⟨r, pv, hr, hpv, hbv, hG'⟩ := ih hchrest s (min s bestP) (min v bestV)
          (by omega) has (le_min (le_refl s) (by omega))
          (by rw [← hsv]; exact min_le_min (le_refl s) hvp)
        refine ⟨r, pv, ?_, ?_, ?_, ?_⟩
        · simp only [abFoldMin, hs]
          rw [if_neg (by rw [hmins]; omega), hmins]
          exact hr
        · simp only [optFoldMin, hv]
          exact hpv
        · exact le_trans hbv (min_le_right v bestV)
        · have hpvs : pv ≤ s := by
            have := le_trans hbv (min_le_left v bestV)
            omega
          refine ⟨fun h => hG'.1 h, fun h1 h2 => ?_, fun h => ?_⟩
          · rcases lt_or_le r s with h3 | h3
            · exact hG'.2.1 h1 h3
            · have := hG'.2.2 h3
              omega
          · exact hG'.2.2 (by omega)

theorem minimaxGas_KM (maxDepth : Nat) :
    ∀ (gas : Nat) (b : Board) (depth : Nat) (isMax : Bool) (a beta : Int),
    numEmpty b < gas → negInf ≤ a → beta ≤ posInf → a < beta →
    ∃ r v, minimaxGas maxDepth gas b depth isMax a beta = some r ∧
      minimaxPlainGas maxDepth gas b depth isMax = some v ∧ KMrel v r a beta := by
  intro gas
  induction gas with
  | zero => intro b depth isMax a beta h _ _ _; omega
  | succ gas ih =>
    intro b depth isMax a beta h hna hbi hab
    simp only [minimaxGas, minimaxPlainGas]
    cases hw : checkWinnerAI b with
    | some mk =>
      cases mk
      · exact ⟨(depth : Int) - 10, (depth : Int) - 10, rfl, rfl, KMrel_refl _ _ _⟩
      · exact ⟨10 - (depth : Int), 10 - (depth : Int), rfl, rfl, KMrel_refl _ _ _⟩
    | none =>
      by_cases hf : isBoardFull b
      · simp only [hf, if_true]
        exact ⟨0, 0, rfl, rfl, KMrel_refl _ _ _⟩
      · simp only [hf, Bool.false_eq_true, if_false]
        by_cases hd : maxDepth ≤ depth
        · simp only [hd, if_true]
          exact ⟨0, 0, rfl, rfl, KMrel_refl _ _ _⟩
        · simp only [hd, if_false]
          have hchild : ∀ (mk : Mark), ∀ p ∈ emptyCells b,
              numEmpty (setCell b p.1 p.2 (some mk)) < gas := by
            intro mk p hp
            have := numEmpty_setCell_lt mk (mem_emptyCells.mp hp)
            omega
          cases isMax with
          | true =>
            simp only [if_true]
            obtain ⟨r, pv, hr, hpv, -, hG⟩ := abFoldMax_KM
              (fun b' a' bt => minimaxGas maxDepth gas b' (depth + 1) false a' bt)
              (fun b' => minimaxPlainGas maxDepth gas b' (depth + 1) false)
              b beta (emptyCells b)
              (fun p hp a' hna' hab' =>
                ih (setCell b p.1 p.2 (some Mark.O)) (depth + 1) false a' beta
                  (hchild Mark.O p hp) hna' hbi hab')
              a negInf negInf hna hab hna (le_refl _)
            exact ⟨r, pv, hr, hpv, hG⟩
          | false =>
            simp only [Bool.false_eq_true, if_false]
            obtain ⟨r, pv, hr, hpv, -, hG⟩ := abFoldMin_KM
              (fun b' a' bt => minimaxGas maxDepth gas b' (depth + 1) true a' bt)
              (fun b' => minimaxPlainGas maxDepth gas b' (depth + 1) true)
              b a (emptyCells b)
              (fun p hp bt hbi' hab' =>
                ih (setCell b p.1 p.2 (some Mark.X)) (depth + 1) true a bt
                  (hchild Mark.X p hp) hna hbi' hab')
              beta posInf posInf hbi hab hbi (le_refl _)
            exact ⟨r, pv, hr, hpv, hG⟩

/-- At the full window the pruned search returns exactly the unpruned
value (for any tier depth, `maxDepth ≤ 9`). -/
theorem minimax_eq_plain {maxDepth : Nat} (hmd : maxDepth ≤ 9) (b : Board)
    (depth : Nat) (isMax : Bool) (hdep : depth ≤ maxDepth) :
    minimax maxDepth b depth isMax negInf posInf =
      minimaxPlain maxDepth b depth isMax := by
  obtain ⟨r, v, hr, hv, hG⟩ := minimaxGas_KM maxDepth (numEmpty b + 1) b depth isMax
    negInf posInf (Nat.lt_succ_self _) (le_refl _) (le_refl _)
    (by unfold negInf posInf; omega)
  have hb := minimaxPlainGas_bound maxDepth hmd _ b depth isMax v hdep hv
  have hlow : negInf < r := by
    by_contra hc
    push_neg at hc
    have := hG.1 hc
    unfold negInf at *
    omega
  have hhigh : r < posInf := by
    by_contra hc
    push_neg at hc
    have := hG.2.2 hc
    unfold posInf at *
    omega
  have hrv : r = v := hG.2.1 hlow hhigh
  have h1 : minimax maxDepth b depth isMax negInf posInf = r := by
    unfold minimax
    rw [hr]
    rfl
  have h2 : minimaxPlain maxDepth b depth isMax = v := by
    unfold minimaxPlain
    rw [hv]
    rfl
  rw [h1, h2, hrv]

/-! ## The full-depth search computes the game value (up to sign) -/

theorem plainGas_sgn_gval :
    ∀ (gas : Nat) (b : Board) (depth : Nat) (isMax : Bool),
    numEmpty b < gas → depth + numEmpty b ≤ 9 →
    ∃ v g, minimaxPlainGas 9 gas b depth isMax = some v ∧
      gvalGas gas b isMax = some g ∧ g = sgn v := by
  intro gas
  induction gas with
  | zero => intro b depth isMax h _; omega
  | succ gas ih =>
    intro b depth isMax h hdn
    simp only [minimaxPlainGas, gvalGas]
    cases hw : checkWinnerAI b with
    | some mk =>
      cases mk
      · refine ⟨(depth : Int) - 10, -1, rfl, rfl, ?_⟩
        unfold sgn
        have : (depth : Int) - 10 < 0 := by omega
        rw [if_neg (by omega), if_pos this]
      · refine ⟨10 - (depth : Int), 1, rfl, rfl, ?_⟩
        unfold sgn
        rw [if_pos (by omega)]
    | none =>
      by_cases hf : isBoardFull b
      · simp only [hf, if_true]
        exact ⟨0, 0, rfl, rfl, by unfold sgn; norm_num⟩
      · simp only [hf, Bool.false_eq_true, if_false]
        have hne := emptyCells_ne_nil_of_not_full
          (by cases hfb : isBoardFull b; rfl; exact absurd hfb hf)
        have hpos : 1 ≤ numEmpty b := by
          unfold numEmpty
          exact List.length_pos.mpr hne
        have hd : ¬(9 ≤ depth) := by omega
        simp only [hd, if_false]
        obtain ⟨p0, hp0⟩ := List.exists_mem_of_ne_nil _ hne
        have hchIH : ∀ p ∈ emptyCells b, ∀ (mk : Mark) (m' : Bool),
            ∃ v g, minimaxPlainGas 9 gas (setCell b p.1 p.2 (some mk)) (depth + 1) m' = some v ∧
              gvalGas gas (setCell b p.1 p.2 (some mk)) m' = some g ∧ g = sgn v := by
          intro p hp mk m'
          have hlt := numEmpty_setCell_lt mk (mem_emptyCells.mp hp)
          exact ih _ (depth + 1) m' (by omega) (by omega)
        have hbnd : ∀ p ∈ emptyCells b, ∀ (mk : Mark) (m' : Bool) (w : Int),
            minimaxPlainGas 9 gas (setCell b p.1 p.2 (some mk)) (depth + 1) m' = some w →
            -10 ≤ w ∧ w ≤ 10 := by
          intro p hp mk m' w hw'
          exact minimaxPlainGas_bound 9 (le_refl _) gas _ _ _ w (by omega) hw'
        cases isMax with
        | true =>
          simp only [if_true]
          obtain ⟨pv, hpv, hbpv, hubv, hshapev⟩ := optFoldMax_spec
            (fun b' => minimaxPlainGas 9 gas b' (depth + 1) false) b Mark.O
            (emptyCells b) negInf
            (fun p hp => (hchIH p hp Mark.O false).elim
              (fun v hv => ⟨v, hv.choose_spec.1⟩))
          obtain ⟨gv, hgv, hbgv, hubg, hshapeg⟩ := optFoldMax_spec
            (fun b' => gvalGas gas b' false) b Mark.O
            (emptyCells b) negInf
            (fun p hp => (hchIH p hp Mark.O false).elim
              (fun v hv => ⟨hv.choose, hv.choose_spec.2.1⟩))
          refine ⟨pv, gv, hpv, hgv, le_antisymm ?_ ?_⟩
          · -- gv ≤ sgn pv
            rcases hshapeg with h1 | ⟨q, hq, hrec⟩
            · obtain ⟨v0, g0, hv0, hg0, he0⟩ := hchIH p0 hp0 Mark.O false
              have := hubg p0 hp0 g0 hg0
              have hb0 := gvalGas_bound gas _ _ _ hg0
              unfold negInf at h1
              omega
            · obtain ⟨vq, gq, hvq, hgq, heq⟩ := hchIH q hq Mark.O false
              have : gq = gv := by rw [hgq] at hrec; injection hrec
              rw [← this, heq]
              exact sgn_mono (hubv q hq vq hvq)
          · -- sgn pv ≤ gv
            rcases hshapev with h1 | ⟨q, hq, hrec⟩
            · obtain ⟨v0, g0, hv0, hg0, he0⟩ := hchIH p0 hp0 Mark.O false
              have := hubv p0 hp0 v0 hv0
              have hb0 := hbnd p0 hp0 Mark.O false v0 hv0
              unfold negInf at h1
              omega
            · obtain ⟨vq, gq, hvq, hgq, heq⟩ := hchIH q hq Mark.O false
              have hveq : vq = pv := by rw [hvq] at hrec; injection hrec
              rw [← hveq, ← heq]
              exact hubg q hq gq hgq
        | false =>
          simp only [Bool.false_eq_true, if_false]
          obtain ⟨pv, hpv, hbpv, hlbv, hshapev⟩ := optFoldMin_spec
            (fun b' => minimaxPlainGas 9 gas b' (depth + 1) true) b Mark.X
            (emptyCells b) posInf
            (fun p hp => (hchIH p hp Mark.X true).elim
              (fun v hv => ⟨v, hv.choose_spec.1⟩))
          obtain ⟨gv, hgv, hbgv, hlbg, hshapeg⟩ := optFoldMin_spec
            (fun b' => gvalGas gas b' true) b Mark.X
            (emptyCells b) posInf
            (fun p hp => (hchIH p hp Mark.X true).elim
              (fun v hv => ⟨hv.choose, hv.choose_spec.2.1⟩))
          refine ⟨pv, gv, hpv, hgv, le_antisymm ?_ ?_⟩
          · -- gv ≤ sgn pv
            rcases hshapev with h1 | ⟨q, hq, hrec⟩
            · obtain ⟨v0, g0, hv0, hg0, he0⟩ := hchIH p0 hp0 Mark.X true
              have := hlbv p0 hp0 v0 hv0
              have hb0 := hbnd p0 hp0 Mark.X true v0 hv0
              unfold posInf at h1
              omega
            · obtain ⟨vq, gq, hvq, hgq, heq⟩ := hchIH q hq Mark.X true
              have hveq : vq = pv := by rw [hvq] at hrec; injection hrec
              rw [← hveq, ← heq]
              exact hlbg q hq gq hgq
          · -- sgn pv ≤ gv
            rcases hshapeg with h1 | ⟨q, hq, hrec⟩
            · obtain ⟨v0, g0, hv0, hg0, he0⟩ := hchIH p0 hp0 Mark.X true
              have := hlbg p0 hp0 g0 hg0
              have hb0 := gvalGas_bound gas _ _ _ hg0
              unfold posInf at h1
              omega
            · obtain ⟨vq, gq, hvq, hgq, heq⟩ := hchIH q hq Mark.X true
              have : gq = gv := by rw [hgq] at hrec; injection hrec
              rw [← this, heq]
              exact sgn_mono (hlbv q hq vq hvq)

/-- The game value is the sign of the full-depth unpruned score. -/
theorem gval_eq_sgn (b : Board) (isMax : Bool) :
    gval b isMax = sgn (minimaxPlain 9 b 0 isMax) := by
  obtain ⟨v, g, hv, hg, he⟩ := plainGas_sgn_gval (numEmpty b + 1) b 0 isMax
    (Nat.lt_succ_self _) (by have := numEmpty_le_nine b; omega)
  have h1 : minimaxPlain 9 b 0 isMax = v := by
    unfold minimaxPlain
    rw [hv]
    rfl
  have h2 : gval b isMax = g := by
    unfold gval
    rw [hg]
    rfl
  rw [h1, h2, he]

/-! ## The selection loop picks a maximal-scoring move -/

theorem pickBest_spec (score : Fin 3 × Fin 3 → Int) :
    ∀ (l : List (Fin 3 × Fin 3)) (bs : Int) (acc : Option (Fin 3 × Fin 3)),
    (∀ q, acc = some q → score q = bs) →
    ∀ m, pickBest score l bs acc = some m →
      bs ≤ score m ∧ (∀ p ∈ l, score p ≤ score m) ∧ (acc = some m ∨ m ∈ l) := by
  intro l
  induction l with
  | nil =>
    intro bs acc hacc m hm
    simp only [pickBest] at hm
    have := hacc m hm
    exact ⟨le_of_eq this.symm, by simp, Or.inl hm⟩
  | cons q rest ih =>
    intro bs acc hacc m hm
    obtain ⟨rr, cc⟩ := q
    simp only [pickBest] at hm
    by_cases hlt : bs < score (rr, cc)
    · rw [if_pos hlt] at hm
      obtain ⟨h1, h2, h3⟩ := ih (score (rr, cc)) (some (rr, cc))
        (fun q' hq' => by injection hq' with h; rw [← h]) m hm
      refine ⟨by omega, ?_, ?_⟩
      · intro p hp
        rcases List.mem_cons.mp hp with he | he
        · subst he; exact h1
        · exact h2 p he
      · rcases h3 with he | he
        · injection he with h
          exact Or.inr (List.mem_cons.mpr (Or.inl h.symm))
        · exact Or.inr (List.mem_cons_of_mem _ he)
    · rw [if_neg hlt] at hm
      obtain ⟨h1, h2, h3⟩ := ih bs acc hacc m hm
      refine ⟨h1, ?_, ?_⟩
      · intro p hp
        rcases List.mem_cons.mp hp with he | he
        · subst he; omega
        · exact h2 p he
      · rcases h3 with he | he
        · exact Or.inl he
        · exact Or.inr (List.mem_cons_of_mem _ he)

theorem pickBest_congr {score₁ score₂ : Fin 3 × Fin 3 → Int} :
    ∀ (l : List (Fin 3 × Fin 3)) (bs : Int) (acc : Option (Fin 3 × Fin 3)),
    (∀ p ∈ l, score₁ p = score₂ p) →
    pickBest score₁ l bs acc = pickBest score₂ l bs acc := by
  intro l
  induction l with
  | nil => intro bs acc _; rfl
  | cons q rest ih =>
    intro bs acc h
    have hq := h q (List.mem_cons_self _ _)
    obtain ⟨rr, cc⟩ := q
    simp only [pickBest, hq]
    by_cases hlt : bs < score₂ (rr, cc)
    · rw [if_pos hlt, if_pos hlt]
      exact ih _ _ (fun p hp => h p (List.mem_cons_of_mem _ hp))
    · rw [if_neg hlt, if_neg hlt]
      exact ih _ _ (fun p hp => h p (List.mem_cons_of_mem _ hp))

/-! ## Game-value recurrences and the play invariant -/

theorem gval_winnerX {b : Board} (hw : checkWinnerAI b = some Mark.X)
    (isMax : Bool) : gval b isMax = -1 := by
  unfold gval
  simp only [gvalGas, hw]
  rfl

theorem gval_maxNode {b : Board} (hw : checkWinnerAI b = none)
    (hf : isBoardFull b = false) :
    (∃ q ∈ emptyCells b,
      gval (setCell b q.1 q.2 (some Mark.O)) false = gval b true) ∧
    (∀ p ∈ emptyCells b,
      gval (setCell b p.1 p.2 (some Mark.O)) false ≤ gval b true) := by
  have hne := emptyCells_ne_nil_of_not_full hf
  obtain ⟨p0, hp0⟩ := List.exists_mem_of_ne_nil _ hne
  have hch : ∀ p ∈ emptyCells b, ∃ w,
      gvalGas (numEmpty b) (setCell b p.1 p.2 (some Mark.O)) false = some w := by
    intro p hp
    exact ⟨gval (setCell b p.1 p.2 (some Mark.O)) false,
      gvalGas_eq _ _ (numEmpty_setCell_lt Mark.O (mem_emptyCells.mp hp))⟩
  obtain ⟨r, hr, hbr, hub, hshape⟩ := optFoldMax_spec
    (fun b' => gvalGas (numEmpty b) b' false) b Mark.O (emptyCells b) negInf hch
  have hfold : gval b true = r := by
    unfold gval
    simp only [gvalGas, hw, hf, Bool.false_eq_true, if_false, if_true]
    rw [hr]
    rfl
  have hchval : ∀ p ∈ emptyCells b, ∀ w,
      gvalGas (numEmpty b) (setCell b p.1 p.2 (some Mark.O)) false = some w →
      gval (setCell b p.1 p.2 (some Mark.O)) false = w := by
    intro p hp w hw'
    have := gvalGas_eq (setCell b p.1 p.2 (some Mark.O)) false
      (numEmpty_setCell_lt Mark.O (mem_emptyCells.mp hp))
    rw [this] at hw'
    injection hw'
  constructor
  · rcases hshape with h1 | ⟨q, hq, hrec⟩
    · obtain ⟨w0, hw0⟩ := hch p0 hp0
      have := hub p0 hp0 w0 hw0
      have hb0 := gvalGas_bound _ _ _ _ hw0
      unfold negInf at h1
      omega
    · exact ⟨q, hq, by rw [hfold, hchval q hq r hrec]⟩
  · intro p hp
    obtain ⟨w, hwp⟩ := hch p hp
    rw [hfold, hchval p hp w hwp]
    exact hub p hp w hwp

theorem gval_minNode {b : Board} (hw : checkWinnerAI b = none)
    (hf : isBoardFull b = false) :
    ∀ p ∈ emptyCells b,
      gval b false ≤ gval (setCell b p.1 p.2 (some Mark.X)) true := by
  have hch : ∀ p ∈ emptyCells b, ∃ w,
      gvalGas (numEmpty b) (setCell b p.1 p.2 (some Mark.X)) true = some w := by
    intro p hp
    exact ⟨gval (setCell b p.1 p.2 (some Mark.X)) true,
      gvalGas_eq _ _ (numEmpty_setCell_lt Mark.X (mem_emptyCells.mp hp))⟩
  obtain ⟨r, hr, hbr, hlb, hshape⟩ := optFoldMin_spec
    (fun b' => gvalGas (numEmpty b) b' true) b Mark.X (emptyCells b) posInf hch
  have hfold : gval b false = r := by
    unfold gval
    simp only [gvalGas, hw, hf, Bool.false_eq_true, if_false]
    rw [hr]
    rfl
  intro p hp
  obtain ⟨w, hwp⟩ := hch p hp
  have hchval : gval (setCell b p.1 p.2 (some Mark.X)) true = w := by
    have := gvalGas_eq (setCell b p.1 p.2 (some Mark.X)) true
      (numEmpty_setCell_lt Mark.X (mem_emptyCells.mp hp))
    rw [this] at hwp
    injection hwp
  rw [hfold, hchval]
  exact hlb p hp w hwp

/-- With the Impossible tier and a genuine random draw, `get_move` is
exactly the minimax best move and leaves the board untouched. -/
theorem getMove_impossible (rnd : RandSrc) (h : 0 ≤ rnd.mistakeRoll) (b : Board) :
    getMove "Impossible" rnd b = (getBestMove 9 b, b) := by
  unfold getMove
  have hmp : mistakeProbability "Impossible" = 0 := by decide
  rw [hmp, if_neg (not_lt.mpr h), if_neg (by decide), if_neg (by decide),
    show getMaxDepth "Impossible" = 9 from by decide]

/-- One play step preserves "the engine is not lost": if the position
value for the engine is nonnegative, it stays nonnegative after the
engine's minimax move, and after any legal (in particular optimal)
reply of `X`. -/
theorem gstep_preserves {s s' : Board × Mark} (h : GStep s s')
    (hinv : 0 ≤ gval s.1 (maxFor s.2)) : 0 ≤ gval s'.1 (maxFor s'.2) := by
  cases h with
  | oMove rnd h0 hw hm =>
    rename_i b m
    show 0 ≤ gval (setCell b m.1 m.2 (some Mark.O)) false
    have hinv' : 0 ≤ gval b true := hinv
    have hm' : getBestMove 9 b = some m := by
      rw [getMove_impossible rnd h0 b] at hm
      exact hm
    obtain ⟨hbs, hub, hmem⟩ := pickBest_spec
      (fun p => minimax 9 (setCell b p.1 p.2 (some Mark.O)) 0 false negInf posInf)
      (emptyCells b) negInf none (fun q hq => by cases hq) m hm'
    have hmmem : m ∈ emptyCells b := by
      rcases hmem with h' | h'
      · cases h'
      · exact h'
    have hf : isBoardFull b = false := not_full_of_mem_emptyCells hmmem
    obtain ⟨⟨q, hq, hqe⟩, -⟩ := gval_maxNode hw hf
    have heq : ∀ p : Fin 3 × Fin 3,
        minimax 9 (setCell b p.1 p.2 (some Mark.O)) 0 false negInf posInf =
          minimaxPlain 9 (setCell b p.1 p.2 (some Mark.O)) 0 false :=
      fun p => minimax_eq_plain (le_refl 9) _ 0 false (Nat.zero_le _)
    have hq0 : 0 ≤ minimaxPlain 9 (setCell b q.1 q.2 (some Mark.O)) 0 false := by
      rw [← sgn_nonneg_iff, ← gval_eq_sgn, hqe]
      exact hinv'
    have hscore : 0 ≤ minimaxPlain 9 (setCell b m.1 m.2 (some Mark.O)) 0 false := by
      have := hub q hq
      rw [heq q, heq m] at this
      omega
    rw [gval_eq_sgn, sgn_nonneg_iff]
    exact hscore
  | xMove hw hopt =>
    rename_i b m
    show 0 ≤ gval (setCell b m.1 m.2 (some Mark.X)) true
    have hinv' : 0 ≤ gval b false := hinv
    have hf : isBoardFull b = false := not_full_of_mem_emptyCells hopt.1
    have := gval_minNode hw hf m hopt.1
    omega

/-! ## Immediate win / block scan lemmas -/

theorem tryMoveAux_snd (mk : Mark) :
    ∀ (l : List (Fin 3 × Fin 3)) (b : Board), (tryMoveAux mk b l).2 = b := by
  intro l
  induction l with
  | nil => intro b; rfl
  | cons q rest ih =>
    intro b
    obtain ⟨r, c⟩ := q
    simp only [tryMoveAux]
    by_cases hb : b r c = none
    · rw [if_pos hb]
      by_cases hw : checkWinnerAI (setCell b r c (some mk)) = some mk
      · rw [if_pos hw]
        exact setCell_restore (some mk) hb
      · rw [if_neg hw, setCell_restore (some mk) hb]
        exact ih b
    · rw [if_neg hb]
      exact ih b

theorem tryMoveAux_win (mk : Mark) :
    ∀ (l : List (Fin 3 × Fin 3)) (b : Board) (m : Fin 3 × Fin 3),
    (tryMoveAux mk b l).1 = some m →
    checkWinnerAI (setCell b m.1 m.2 (some mk)) = some mk := by
  intro l
  induction l with
  | nil => intro b m hm; cases hm
  | cons q rest ih =>
    intro b m hm
    obtain ⟨r, c⟩ := q
    simp only [tryMoveAux] at hm
    by_cases hb : b r c = none
    · rw [if_pos hb] at hm
      by_cases hw : checkWinnerAI (setCell b r c (some mk)) = some mk
      · rw [if_pos hw] at hm
        injection hm with hm'
        rw [← hm']
        exact hw
      · rw [if_neg hw, setCell_restore (some mk) hb] at hm
        exact ih b m hm
    · rw [if_neg hb] at hm
      exact ih b m hm

theorem tryMoveAux_none (mk : Mark) :
    ∀ (l : List (Fin 3 × Fin 3)) (b : Board),
    (∀ p ∈ l, b p.1 p.2 = none →
      checkWinnerAI (setCell b p.1 p.2 (some mk)) ≠ some mk) →
    (tryMoveAux mk b l).1 = none := by
  intro l
  induction l with
  | nil => intro b _; rfl
  | cons q rest ih =>
    intro b h
    obtain ⟨r, c⟩ := q
    simp only [tryMoveAux]
    by_cases hb : b r c = none
    · rw [if_pos hb]
      have hw := h (r, c) (List.mem_cons_self _ _) hb
      rw [if_neg hw, setCell_restore (some mk) hb]
      exact ih b (fun p hp => h p (List.mem_cons_of_mem _ hp))
    · rw [if_neg hb]
      exact ih b (fun p hp => h p (List.mem_cons_of_mem _ hp))

/-! ## Winner-scan lemmas -/

theorem cond_of_filled {x y z : Cell} {T : Mark} (h1 : x = some T)
    (h2 : y = some T) (h3 : z = some T) : x = y ∧ y = z ∧ x ≠ none :=
  ⟨h1.trans h2.symm, h2.trans h3.symm, by rw [h1]; exact Option.some_ne_none T⟩

theorem condGL_of_filled {x y z : Cell} {T : Mark} (h1 : x = some T)
    (h2 : y = some T) (h3 : z = some T) : x ≠ none ∧ x = y ∧ y = z :=
  ⟨by rw [h1]; exact Option.some_ne_none T, h1.trans h2.symm, h2.trans h3.symm⟩

theorem condGLd_of_filled {x m z : Cell} {T : Mark} (h1 : x = some T)
    (h2 : m = some T) (h3 : z = some T) : m ≠ none ∧ x = m ∧ m = z :=
  ⟨by rw [h2]; exact Option.some_ne_none T, h1.trans h2.symm, h2.trans h3.symm⟩

theorem not_cond_of_not_filled {x y z : Cell}
    (h : ∀ T : Mark, ¬(x = some T ∧ y = some T ∧ z = some T)) :
    ¬(x = y ∧ y = z ∧ x ≠ none) := by
  rintro ⟨h1, h2, h3⟩
  cases hx : x with
  | none => exact h3 hx
  | some T =>
    refine h T ⟨hx, ?_, ?_⟩
    · rw [← h1, hx]
    · rw [← h2, ← h1, hx]

theorem not_condGL_of_not_filled {x y z : Cell}
    (h : ∀ T : Mark, ¬(x = some T ∧ y = some T ∧ z = some T)) :
    ¬(x ≠ none ∧ x = y ∧ y = z) := by
  rintro ⟨h3, h1, h2⟩
  cases hx : x with
  | none => exact h3 hx
  | some T =>
    refine h T ⟨hx, ?_, ?_⟩
    · rw [← h1, hx]
    · rw [← h2, ← h1, hx]

theorem not_condGLd_of_not_filled {x m z : Cell}
    (h : ∀ T : Mark, ¬(x = some T ∧ m = some T ∧ z = some T)) :
    ¬(m ≠ none ∧ x = m ∧ m = z) := by
  rintro ⟨h3, h1, h2⟩
  cases hm : m with
  | none => exact h3 hm
  | some T =>
    refine h T ⟨by rw [h1, hm], hm, ?_⟩
    · rw [← h2, hm]

theorem lineFilled_iff (b : Board) (i : Fin 8) (S : Mark) :
    lineFilled b i S ↔
      b (lineAt i).1.1 (lineAt i).1.2 = some S ∧
      b (lineAt i).2.1.1 (lineAt i).2.1.2 = some S ∧
      b (lineAt i).2.2.1 (lineAt i).2.2.2 = some S := Iff.rfl


theorem checkWinnerAI_scan (b : Board) (i : Fin 8) (S : Mark)
    (hfill : lineFilled b i S)
    (hearlier : ∀ j : Fin 8, j < i → ∀ T : Mark, ¬ lineFilled b j T) :
    checkWinnerAI b = some S := by
  unfold checkWinnerAI
  fin_cases i
  · -- line 0
    obtain ⟨f1, f2, f3⟩ : b 0 0 = some S ∧ b 0 1 = some S ∧ b 0 2 = some S := hfill
    rw [if_pos (cond_of_filled f1 f2 f3)]
    exact f1
  · -- line 1
    obtain ⟨f1, f2, f3⟩ : b 1 0 = some S ∧ b 1 1 = some S ∧ b 1 2 = some S := hfill
    have hn0 := not_cond_of_not_filled (x := b 0 0) (y := b 0 1) (z := b 0 2)
      (fun T hT => hearlier 0 (by decide) T hT)
    rw [if_neg hn0, if_pos (cond_of_filled f1 f2 f3)]
    exact f1
  · -- line 2
    obtain ⟨f1, f2, f3⟩ : b 2 0 = some S ∧ b 2 1 = some S ∧ b 2 2 = some S := hfill
    have hn0 := not_cond_of_not_filled (x := b 0 0) (y := b 0 1) (z := b 0 2)
      (fun T hT => hearlier 0 (by decide) T hT)
    have hn1 := not_cond_of_not_filled (x := b 1 0) (y := b 1 1) (z := b 1 2)
      (fun T hT => hearlier 1 (by decide) T hT)
    rw [if_neg hn0, if_neg hn1, if_pos (cond_of_filled f1 f2 f3)]
    exact f1
  · -- line 3
    obtain ⟨f1, f2, f3⟩ : b 0 0 = some S ∧ b 1 0 = some S ∧ b 2 0 = some S := hfill
    have hn0 := not_cond_of_not_filled (x := b 0 0) (y := b 0 1) (z := b 0 2)
      (fun T hT => hearlier 0 (by decide) T hT)
    have hn1 := not_cond_of_not_filled (x := b 1 0) (y := b 1 1) (z := b 1 2)
      (fun T hT => hearlier 1 (by decide) T hT)
    have hn2 := not_cond_of_not_filled (x := b 2 0) (y := b 2 1) (z := b 2 2)
      (fun T hT => hearlier 2 (by decide) T hT)
    rw [if_neg hn0, if_neg hn1, if_neg hn2, if_pos (cond_of_filled f1 f2 f3)]
    exact f1
  · -- line 4
    obtain ⟨f1, f2, f3⟩ : b 0 1 = some S ∧ b 1 1 = some S ∧ b 2 1 = some S := hfill
    have hn0 := not_cond_of_not_filled (x := b 0 0) (y := b 0 1) (z := b 0 2)
      (fun T hT => hearlier 0 (by decide) T hT)
    have hn1 := not_cond_of_not_filled (x := b 1 0) (y := b 1 1) (z := b 1 2)
      (fun T hT => hearlier 1 (by decide) T hT)
    have hn2 := not_cond_of_not_filled (x := b 2 0) (y := b 2 1) (z := b 2 2)
      (fun T hT => hearlier 2 (by decide) T hT)
    have hn3 := not_cond_of_not_filled (x := b 0 0) (y := b 1 0) (z := b 2 0)
      (fun T hT => hearlier 3 (by decide) T hT)
    rw [if_neg hn0, if_neg hn1, if_neg hn2, if_neg hn3, if_pos (cond_of_filled f1 f2 f3)]
    exact f1
  · -- line 5
    obtain ⟨f1, f2, f3⟩ : b 0 2 = some S ∧ b 1 2 = some S ∧ b 2 2 = some S := hfill
    have hn0 := not_cond_of_not_filled (x := b 0 0) (y := b 0 1) (z := b 0 2)
      (fun T hT => hearlier 0 (by decide) T hT)
    have hn1 := not_cond_of_not_filled (x := b 1 0) (y := b 1 1) (z := b 1 2)
      (fun T hT => hearlier 1 (by decide) T hT)
    have hn2 := not_cond_of_not_filled (x := b 2 0) (y := b 2 1) (z := b 2 2)
      (fun T hT => hearlier 2 (by decide) T hT)
    have hn3 := not_cond_of_not_filled (x := b 0 0) (y := b 1 0) (z := b 2 0)
      (fun T hT => hearlier 3 (by decide) T hT)
    have hn4 := not_cond_of_not_filled (x := b 0 1) (y := b 1 1) (z := b 2 1)
      (fun T hT => hearlier 4 (by decide) T hT)
    rw [if_neg hn0, if_neg hn1, if_neg hn2, if_neg hn3, if_neg hn4, if_pos (cond_of_filled f1 f2 f3)]
    exact f1
  · -- line 6
    obtain ⟨f1, f2, f3⟩ : b 0 0 = some S ∧ b 1 1 = some S ∧ b 2 2 = some S := hfill
    have hn0 := not_cond_of_not_filled (x := b 0 0) (y := b 0 1) (z := b 0 2)
      (fun T hT => hearlier 0 (by decide) T hT)
    have hn1 := not_cond_of_not_filled (x := b 1 0) (y := b 1 1) (z := b 1 2)
      (fun T hT => hearlier 1 (by decide) T hT)
    have hn2 := not_cond_of_not_filled (x := b 2 0) (y := b 2 1) (z := b 2 2)
      (fun T hT => hearlier 2 (by decide) T hT)
    have hn3 := not_cond_of_not_filled (x := b 0 0) (y := b 1 0) (z := b 2 0)
      (fun T hT => hearlier 3 (by decide) T hT)
    have hn4 := not_cond_of_not_filled (x := b 0 1) (y := b 1 1) (z := b 2 1)
      (fun T hT => hearlier 4 (by decide) T hT)
    have hn5 := not_cond_of_not_filled (x := b 0 2) (y := b 1 2) (z := b 2 2)
      (fun T hT => hearlier 5 (by decide) T hT)
    rw [if_neg hn0, if_neg hn1, if_neg hn2, if_neg hn3, if_neg hn4, if_neg hn5, if_pos (cond_of_filled f1 f2 f3)]
    exact f1
  · -- line 7
    obtain ⟨f1, f2, f3⟩ : b 0 2 = some S ∧ b 1 1 = some S ∧ b 2 0 = some S := hfill
    have hn0 := not_cond_of_not_filled (x := b 0 0) (y := b 0 1) (z := b 0 2)
      (fun T hT => hearlier 0 (by decide) T hT)
    have hn1 := not_cond_of_not_filled (x := b 1 0) (y := b 1 1) (z := b 1 2)
      (fun T hT => hearlier 1 (by decide) T hT)
    have hn2 := not_cond_of_not_filled (x := b 2 0) (y := b 2 1) (z := b 2 2)
      (fun T hT => hearlier 2 (by decide) T hT)
    have hn3 := not_cond_of_not_filled (x := b 0 0) (y := b 1 0) (z := b 2 0)
      (fun T hT => hearlier 3 (by decide) T hT)
    have hn4 := not_cond_of_not_filled (x := b 0 1) (y := b 1 1) (z := b 2 1)
      (fun T hT => hearlier 4 (by decide) T hT)
    have hn5 := not_cond_of_not_filled (x := b 0 2) (y := b 1 2) (z := b 2 2)
      (fun T hT => hearlier 5 (by decide) T hT)
    have hn6 := not_cond_of_not_filled (x := b 0 0) (y := b 1 1) (z := b 2 2)
      (fun T hT => hearlier 6 (by decide) T hT)
    rw [if_neg hn0, if_neg hn1, if_neg hn2, if_neg hn3, if_neg hn4, if_neg hn5, if_neg hn6, if_pos (cond_of_filled f1 f2 f3)]
    exact f1

theorem checkWinnerGL_scan (b : Board) (i : Fin 8) (S : Mark)
    (hfill : lineFilled b i S)
    (hearlier : ∀ j : Fin 8, j < i → ∀ T : Mark, ¬ lineFilled b j T) :
    checkWinnerGL b = some S := by
  unfold checkWinnerGL
  fin_cases i
  · -- line 0
    obtain ⟨f1, f2, f3⟩ : b 0 0 = some S ∧ b 0 1 = some S ∧ b 0 2 = some S := hfill
    rw [if_pos (condGL_of_filled f1 f2 f3)]
    exact f1
  · -- line 1
    obtain ⟨f1, f2, f3⟩ : b 1 0 = some S ∧ b 1 1 = some S ∧ b 1 2 = some S := hfill
    have hn0 := not_condGL_of_not_filled (x := b 0 0) (y := b 0 1) (z := b 0 2)
      (fun T hT => hearlier 0 (by decide) T hT)
    rw [if_neg hn0, if_pos (condGL_of_filled f1 f2 f3)]
    exact f1
  · -- line 2
    obtain ⟨f1, f2, f3⟩ : b 2 0 = some S ∧ b 2 1 = some S ∧ b 2 2 = some S := hfill
    have hn0 := not_condGL_of_not_filled (x := b 0 0) (y := b 0 1) (z := b 0 2)
      (fun T hT => hearlier 0 (by decide) T hT)
    have hn1 := not_condGL_of_not_filled (x := b 1 0) (y := b 1 1) (z := b 1 2)
      (fun T hT => hearlier 1 (by decide) T hT)
    rw [if_neg hn0, if_neg hn1, if_pos (condGL_of_filled f1 f2 f3)]
    exact f1
  · -- line 3
    obtain ⟨f1, f2, f3⟩ : b 0 0 = some S ∧ b 1 0 = some S ∧ b 2 0 = some S := hfill
    have hn0 := not_condGL_of_not_filled (x := b 0 0) (y := b 0 1) (z := b 0 2)
      (fun T hT => hearlier 0 (by decide) T hT)
    have hn1 := not_condGL_of_not_filled (x := b 1 0) (y := b 1 1) (z := b 1 2)
      (fun T hT => hearlier 1 (by decide) T hT)
    have hn2 := not_condGL_of_not_filled (x := b 2 0) (y := b 2 1) (z := b 2 2)
      (fun T hT => hearlier 2 (by decide) T hT)
    rw [if_neg hn0, if_neg hn1, if_neg hn2, if_pos (condGL_of_filled f1 f2 f3)]
    exact f1
  · -- line 4
    obtain ⟨f1, f2, f3⟩ : b 0 1 = some S ∧ b 1 1 = some S ∧ b 2 1 = some S := hfill
    have hn0 := not_condGL_of_not_filled (x := b 0 0) (y := b 0 1) (z := b 0 2)
      (fun T hT => hearlier 0 (by decide) T hT)
    have hn1 := not_condGL_of_not_filled (x := b 1 0) (y := b 1 1) (z := b 1 2)
      (fun T hT => hearlier 1 (by decide) T hT)
    have hn2 := not_condGL_of_not_filled (x := b 2 0) (y := b 2 1) (z := b 2 2)
      (fun T hT => hearlier 2 (by decide) T hT)
    have hn3 := not_condGL_of_not_filled (x := b 0 0) (y := b 1 0) (z := b 2 0)
      (fun T hT => hearlier 3 (by decide) T hT)
    rw [if_neg hn0, if_neg hn1, if_neg hn2, if_neg hn3, if_pos (condGL_of_filled f1 f2 f3)]
    exact f1
  · -- line 5
    obtain ⟨f1, f2, f3⟩ : b 0 2 = some S ∧ b 1 2 = some S ∧ b 2 2 = some S := hfill
    have hn0 := not_condGL_of_not_filled (x := b 0 0) (y := b 0 1) (z := b 0 2)
      (fun T hT => hearlier 0 (by decide) T hT)
    have hn1 := not_condGL_of_not_filled (x := b 1 0) (y := b 1 1) (z := b 1 2)
      (fun T hT => hearlier 1 (by decide) T hT)
    have hn2 := not_condGL_of_not_filled (x := b 2 0) (y := b 2 1) (z := b 2 2)
      (fun T hT => hearlier 2 (by decide) T hT)
    have hn3 := not_condGL_of_not_filled (x := b 0 0) (y := b 1 0) (z := b 2 0)
      (fun T hT => hearlier 3 (by decide) T hT)
    have hn4 := not_condGL_of_not_filled (x := b 0 1) (y := b 1 1) (z := b 2 1)
      (fun T hT => hearlier 4 (by decide) T hT)
    rw [if_neg hn0, if_neg hn1, if_neg hn2, if_neg hn3, if_neg hn4, if_pos (condGL_of_filled f1 f2 f3)]
    exact f1
  · -- line 6
    obtain ⟨f1, f2, f3⟩ : b 0 0 = some S ∧ b 1 1 = some S ∧ b 2 2 = some S := hfill
    have hn0 := not_condGL_of_not_filled (x := b 0 0) (y := b 0 1) (z := b 0 2)
      (fun T hT => hearlier 0 (by decide) T hT)
    have hn1 := not_condGL_of_not_filled (x := b 1 0) (y := b 1 1) (z := b 1 2)
      (fun T hT => hearlier 1 (by decide) T hT)
    have hn2 := not_condGL_of_not_filled (x := b 2 0) (y := b 2 1) (z := b 2 2)
      (fun T hT => hearlier 2 (by decide) T hT)
    have hn3 := not_condGL_of_not_filled (x := b 0 0) (y := b 1 0) (z := b 2 0)
      (fun T hT => hearlier 3 (by decide) T hT)
    have hn4 := not_condGL_of_not_filled (x := b 0 1) (y := b 1 1) (z := b 2 1)
      (fun T hT => hearlier 4 (by decide) T hT)
    have hn5 := not_condGL_of_not_filled (x := b 0 2) (y := b 1 2) (z := b 2 2)
      (fun T hT => hearlier 5 (by decide) T hT)
    rw [if_neg hn0, if_neg hn1, if_neg hn2, if_neg hn3, if_neg hn4, if_neg hn5, if_pos (condGLd_of_filled f1 f2 f3)]
    exact f2
  · -- line 7
    obtain ⟨f1, f2, f3⟩ : b 0 2 = some S ∧ b 1 1 = some S ∧ b 2 0 = some S := hfill
    have hn0 := not_condGL_of_not_filled (x := b 0 0) (y := b 0 1) (z := b 0 2)
      (fun T hT => hearlier 0 (by decide) T hT)
    have hn1 := not_condGL_of_not_filled (x := b 1 0) (y := b 1 1) (z := b 1 2)
      (fun T hT => hearlier 1 (by decide) T hT)
    have hn2 := not_condGL_of_not_filled (x := b 2 0) (y := b 2 1) (z := b 2 2)
      (fun T hT => hearlier 2 (by decide) T hT)
    have hn3 := not_condGL_of_not_filled (x := b 0 0) (y := b 1 0) (z := b 2 0)
      (fun T hT => hearlier 3 (by decide) T hT)
    have hn4 := not_condGL_of_not_filled (x := b 0 1) (y := b 1 1) (z := b 2 1)
      (fun T hT => hearlier 4 (by decide) T hT)
    have hn5 := not_condGL_of_not_filled (x := b 0 2) (y := b 1 2) (z := b 2 2)
      (fun T hT => hearlier 5 (by decide) T hT)
    have hn6 := not_condGLd_of_not_filled (x := b 0 0) (m := b 1 1) (z := b 2 2)
      (fun T hT => hearlier 6 (by decide) T hT)
    rw [if_neg hn0, if_neg hn1, if_neg hn2, if_neg hn3, if_neg hn4, if_neg hn5, if_neg hn6, if_pos (condGLd_of_filled f1 f2 f3)]
    exact f2

theorem checkWinnerAI_of_no_line (b : Board)
    (h : ∀ i : Fin 8, ∀ T : Mark, ¬ lineFilled b i T) :
    checkWinnerAI b = none := by
  unfold checkWinnerAI
  have hn0 := not_cond_of_not_filled (x := b 0 0) (y := b 0 1) (z := b 0 2)
    (fun T hT => h 0 T hT)
  have hn1 := not_cond_of_not_filled (x := b 1 0) (y := b 1 1) (z := b 1 2)
    (fun T hT => h 1 T hT)
  have hn2 := not_cond_of_not_filled (x := b 2 0) (y := b 2 1) (z := b 2 2)
    (fun T hT => h 2 T hT)
  have hn3 := not_cond_of_not_filled (x := b 0 0) (y := b 1 0) (z := b 2 0)
    (fun T hT => h 3 T hT)
  have hn4 := not_cond_of_not_filled (x := b 0 1) (y := b 1 1) (z := b 2 1)
    (fun T hT => h 4 T hT)
  have hn5 := not_cond_of_not_filled (x := b 0 2) (y := b 1 2) (z := b 2 2)
    (fun T hT => h 5 T hT)
  have hn6 := not_cond_of_not_filled (x := b 0 0) (y := b 1 1) (z := b 2 2)
    (fun T hT => h 6 T hT)
  have hn7 := not_cond_of_not_filled (x := b 0 2) (y := b 1 1) (z := b 2 0)
    (fun T hT => h 7 T hT)
  rw [if_neg hn0, if_neg hn1, if_neg hn2, if_neg hn3, if_neg hn4, if_neg hn5, if_neg hn6, if_neg hn7]

theorem checkWinnerGL_of_no_line (b : Board)
    (h : ∀ i : Fin 8, ∀ T : Mark, ¬ lineFilled b i T) :
    checkWinnerGL b = none := by
  unfold checkWinnerGL
  have hn0 := not_condGL_of_not_filled (x := b 0 0) (y := b 0 1) (z := b 0 2)
    (fun T hT => h 0 T hT)
  have hn1 := not_condGL_of_not_filled (x := b 1 0) (y := b 1 1) (z := b 1 2)
    (fun T hT => h 1 T hT)
  have hn2 := not_condGL_of_not_filled (x := b 2 0) (y := b 2 1) (z := b 2 2)
    (fun T hT => h 2 T hT)
  have hn3 := not_condGL_of_not_filled (x := b 0 0) (y := b 1 0) (z := b 2 0)
    (fun T hT => h 3 T hT)
  have hn4 := not_condGL_of_not_filled (x := b 0 1) (y := b 1 1) (z := b 2 1)
    (fun T hT => h 4 T hT)
  have hn5 := not_condGL_of_not_filled (x := b 0 2) (y := b 1 2) (z := b 2 2)
    (fun T hT => h 5 T hT)
  have hn6 := not_condGLd_of_not_filled (x := b 0 0) (m := b 1 1) (z := b 2 2)
    (fun T hT => h 6 T hT)
  have hn7 := not_condGLd_of_not_filled (x := b 0 2) (m := b 1 1) (z := b 2 0)
    (fun T hT => h 7 T hT)
  rw [if_neg hn0, if_neg hn1, if_neg hn2, if_neg hn3, if_neg hn4, if_neg hn5, if_neg hn6, if_neg hn7]

/-! ## Claim theorems -/

/-- C2: for every board and every tier search depth (all tier depths
satisfy `maxDepth ≤ 9`; the statement covers all boards, in particular
every reachable one), the alpha-beta search called from the root with
the full window returns, for each root move considered by
`_get_best_move`, the same score as the unpruned depth-bounded minimax
with the same terminal scoring; consequently the selected best move is
identical with and without pruning. -/
theorem claim_C2 (maxDepth : Nat) (hmd : maxDepth ≤ 9) (b : Board) :
    (∀ p ∈ emptyCells b,
      minimax maxDepth (setCell b p.1 p.2 (some Mark.O)) 0 false negInf posInf =
        minimaxPlain maxDepth (setCell b p.1 p.2 (some Mark.O)) 0 false) ∧
    getBestMove maxDepth b = getBestMovePlain maxDepth b := by
  constructor
  · intro p _
    exact minimax_eq_plain hmd _ 0 false (Nat.zero_le _)
  · unfold getBestMove getBestMovePlain
    exact pickBest_congr _ _ _
      (fun p _ => minimax_eq_plain hmd _ 0 false (Nat.zero_le _))

/-- Witness for C2 at tier depth 6 and the one-X board. -/
theorem claim_C2_witness :
    (∀ p ∈ emptyCells drawBoard,
      minimax 6 (setCell drawBoard p.1 p.2 (some Mark.O)) 0 false negInf posInf =
        minimaxPlain 6 (setCell drawBoard p.1 p.2 (some Mark.O)) 0 false) ∧
    getBestMove 6 drawBoard = getBestMovePlain 6 drawBoard :=
  claim_C2 6 (by norm_num) drawBoard

/-- C3: for every board, depth, and window, `_minimax` evaluates the
terminal conditions in source order and returns `10 − depth` on an `O`
win, `depth − 10` on an `X` win, `0` on a full drawn board, and `0` at
the depth cutoff with no terminal reached. -/
theorem claim_C3 (maxDepth : Nat) (b : Board) (depth : Nat) (isMax : Bool)
    (alpha beta : Int) :
    (checkWinnerAI b = some Mark.O →
      minimax maxDepth b depth isMax alpha beta = 10 - (depth : Int)) ∧
    (checkWinnerAI b = some Mark.X →
      minimax maxDepth b depth isMax alpha beta = (depth : Int) - 10) ∧
    (checkWinnerAI b = none → isBoardFull b = true →
      minimax maxDepth b depth isMax alpha beta = 0) ∧
    (checkWinnerAI b = none → isBoardFull b = false → maxDepth ≤ depth →
      minimax maxDepth b depth isMax alpha beta = 0) := by
  refine ⟨?_, ?_, ?_, ?_⟩
  · intro hw
    unfold minimax
    simp only [minimaxGas, hw]
    rfl
  · intro hw
    unfold minimax
    simp only [minimaxGas, hw]
    rfl
  · intro hw hf
    unfold minimax
    simp only [minimaxGas, hw, hf, if_true]
    rfl
  · intro hw hf hd
    unfold minimax
    simp only [minimaxGas, hw, hf, Bool.false_eq_true, if_false, hd, if_true]
    rfl

/-- Witness for C3: the four terminal cases at concrete boards. -/
theorem claim_C3_witness :
    minimax 9 rowOBoard 3 true (-1000) 1000 = 10 - (3 : Int) ∧
    minimax 9 rowXBoard 4 false (-1000) 1000 = (4 : Int) - 10 ∧
    minimax 9 drawBoard 2 true (-1000) 1000 = 0 ∧
    minimax 3 oneXBoard 5 true (-1000) 1000 = 0 :=
  ⟨(claim_C3 9 rowOBoard 3 true (-1000) 1000).1 (by decide),
   (claim_C3 9 rowXBoard 4 false (-1000) 1000).2.1 (by decide),
   (claim_C3 9 drawBoard 2 true (-1000) 1000).2.2.1 (by decide) (by decide),
   (claim_C3 3 oneXBoard 5 true (-1000) 1000).2.2.2 (by decide) (by decide) (by decide)⟩

/-- C5: for every board, if scan line `i` is completed by `S` and no
line earlier in the scan order is completed, both evaluators return
`S`; and if no line is completed at all, both return `none`. -/
theorem claim_C5 (b : Board) :
    (∀ i : Fin 8, ∀ S : Mark, lineFilled b i S →
      (∀ j : Fin 8, j < i → ∀ T : Mark, ¬ lineFilled b j T) →
      checkWinnerAI b = some S ∧ checkWinnerGL b = some S) ∧
    ((∀ i : Fin 8, ∀ T : Mark, ¬ lineFilled b i T) →
      checkWinnerAI b = none ∧ checkWinnerGL b = none) :=
  ⟨fun i S hf he => ⟨checkWinnerAI_scan b i S hf he, checkWinnerGL_scan b i S hf he⟩,
   fun h => ⟨checkWinnerAI_of_no_line b h, checkWinnerGL_of_no_line b h⟩⟩

/-- Witness for C5: a completed top row and a drawn full board. -/
theorem claim_C5_witness :
    (checkWinnerAI rowOBoard = some Mark.O ∧ checkWinnerGL rowOBoard = some Mark.O) ∧
    (checkWinnerAI drawBoard = none ∧ checkWinnerGL drawBoard = none) :=
  ⟨(claim_C5 rowOBoard).1 0 Mark.O (by decide) (by decide),
   (claim_C5 drawBoard).2 (by decide)⟩

/-- C6: whenever the immediate-win scan (`_try_win_move`, symbol `O`)
or the immediate-block scan (`_try_block_move`, symbol `X`) returns a
move, placing that symbol there wins; and whenever no empty cell
completes a line for the symbol, the scan returns no move. -/
theorem claim_C6 (b : Board) :
    (∀ m : Fin 3 × Fin 3, (tryWinMove b).1 = some m →
      checkWinnerAI (setCell b m.1 m.2 (some Mark.O)) = some Mark.O) ∧
    ((∀ p ∈ emptyCells b,
      checkWinnerAI (setCell b p.1 p.2 (some Mark.O)) ≠ some Mark.O) →
      (tryWinMove b).1 = none) ∧
    (∀ m : Fin 3 × Fin 3, (tryBlockMove b).1 = some m →
      checkWinnerAI (setCell b m.1 m.2 (some Mark.X)) = some Mark.X) ∧
    ((∀ p ∈ emptyCells b,
      checkWinnerAI (setCell b p.1 p.2 (some Mark.X)) ≠ some Mark.X) →
      (tryBlockMove b).1 = none) := by
  refine ⟨?_, ?_, ?_, ?_⟩
  · intro m hm
    exact tryMoveAux_win Mark.O allCells b m hm
  · intro h
    exact tryMoveAux_none Mark.O allCells b
      (fun p hp hpn => h p (mem_emptyCells.mpr hpn))
  · intro m hm
    exact tryMoveAux_win Mark.X allCells b m hm
  · intro h
    exact tryMoveAux_none Mark.X allCells b
      (fun p hp hpn => h p (mem_emptyCells.mpr hpn))

/-- Witness for C6: on `winsBoard` the win scan finds `(0,2)` and the
block scan finds `(2,0)`; on the empty board both scans find
nothing. -/
theorem claim_C6_witness :
    checkWinnerAI (setCell winsBoard 0 2 (some Mark.O)) = some Mark.O ∧
    checkWinnerAI (setCell winsBoard 2 0 (some Mark.X)) = some Mark.X ∧
    (tryWinMove emptyBoard).1 = none ∧
    (tryBlockMove emptyBoard).1 = none :=
  ⟨(claim_C6 winsBoard).1 (0, 2) (by decide),
   (claim_C6 winsBoard).2.2.1 (2, 0) (by decide),
   (claim_C6 emptyBoard).2.1 (by decide),
   (claim_C6 emptyBoard).2.2.2 (by decide)⟩

/-- C7: `get_move` returns the board it was given: every tier's path,
including the mutate-and-restore win/block scans, leaves the snapshot
unchanged. -/
theorem claim_C7 (difficulty : String) (rnd : RandSrc) (b : Board) :
    (getMove difficulty rnd b).2 = b := by
  unfold getMove
  by_cases h1 : rnd.mistakeRoll < mistakeProbability difficulty
  · rw [if_pos h1]
  · rw [if_neg h1]
    by_cases h2 : difficulty = "Easy"
    · rw [if_pos h2]
      rcases htw : tryMoveAux Mark.O b allCells with ⟨mv, b1⟩
      have hb1 : b1 = b := by
        have := tryMoveAux_snd Mark.O allCells b
        rw [htw] at this
        exact this
      cases mv with
      | some m => simp only [htw]; exact hb1
      | none =>
        simp only [htw]
        by_cases h3 : rnd.easyRoll < 1 / 2
        · rw [if_pos h3]; exact hb1
        · rw [if_neg h3]; exact hb1
    · rw [if_neg h2]
      by_cases h3 : difficulty = "Medium"
      · rw [if_pos h3]
        rcases htw : tryMoveAux Mark.O b allCells with ⟨mv, b1⟩
        have hb1 : b1 = b := by
          have := tryMoveAux_snd Mark.O allCells b
          rw [htw] at this
          exact this
        cases mv with
        | some m => simp only [htw]; exact hb1
        | none =>
          simp only [htw]
          rcases htb : tryMoveAux Mark.X b1 allCells with ⟨mv2, b2⟩
          have hb2 : b2 = b1 := by
            have := tryMoveAux_snd Mark.X allCells b1
            rw [htb] at this
            exact this
          cases mv2 with
          | some m => simp only [htb]; rw [hb2, hb1]
          | none => simp only [htb]; rw [hb2, hb1]
      · rw [if_neg h3]

/-- C8: the recursive search terminates: any gas budget exceeding the
number of empty cells (which strictly decreases at each recursive
placement while the depth increases toward the bound) yields the same
defined value. -/
theorem claim_C8 (maxDepth gas : Nat) (b : Board) (depth : Nat) (isMax : Bool)
    (alpha beta : Int) (h : numEmpty b < gas) :
    minimaxGas maxDepth gas b depth isMax alpha beta =
      some (minimax maxDepth b depth isMax alpha beta) :=
  minimaxGas_eq_minimax maxDepth b depth isMax alpha beta h

/-- Witness for C8 at the drawn board with a generous budget. -/
theorem claim_C8_witness :
    minimaxGas 9 10 drawBoard 0 true (-1000) 1000 =
      some (minimax 9 drawBoard 0 true (-1000) 1000) :=
  claim_C8 9 10 drawBoard 0 true (-1000) 1000 (by decide)

/-- C9: an unrecognized difficulty string gets search depth 9 and
mistake probability 0, and `get_move` behaves exactly like the
Impossible tier. -/
theorem claim_C9 (d : String) (h1 : d ≠ "Easy") (h2 : d ≠ "Medium")
    (h3 : d ≠ "Hard") (h4 : d ≠ "Impossible") :
    getMaxDepth d = 9 ∧ mistakeProbability d = 0 ∧
    ∀ (rnd : RandSrc) (b : Board), getMove d rnd b = getMove "Impossible" rnd b := by
  have hd9 : getMaxDepth d = 9 := by
    unfold getMaxDepth
    rw [if_neg h1, if_neg h2, if_neg h3, if_neg h4]
  have hp0 : mistakeProbability d = 0 := by
    unfold mistakeProbability
    rw [if_neg h1, if_neg h2, if_neg h3, if_neg h4]
  refine ⟨hd9, hp0, ?_⟩
  intro rnd b
  unfold getMove
  rw [hp0, show mistakeProbability "Impossible" = 0 from by decide]
  by_cases hroll : rnd.mistakeRoll < 0
  · rw [if_pos hroll, if_pos hroll]
  · rw [if_neg hroll, if_neg hroll, if_neg h1, if_neg h2,
      if_neg (show ¬("Impossible" : String) = "Easy" from by decide),
      if_neg (show ¬("Impossible" : String) = "Medium" from by decide),
      hd9, show getMaxDepth "Impossible" = 9 from by decide]

/-- Witness for C9 at the unrecognized difficulty `"Expert"`. -/
theorem claim_C9_witness :
    getMaxDepth "Expert" = 9 ∧ mistakeProbability "Expert" = 0 ∧
    getMove "Expert" rnd0 drawBoard = getMove "Impossible" rnd0 drawBoard := by
  obtain ⟨a, b, c⟩ := claim_C9 "Expert" (by decide) (by decide) (by decide) (by decide)
  exact ⟨a, b, c rnd0 drawBoard⟩

/-- C10: `make_move` succeeds and writes exactly the addressed cell
with the current player's symbol iff the coordinates are in range and
the cell is empty; otherwise it fails leaving the state unchanged. -/
theorem claim_C10 (gs : GameState) (row col : Int) :
    (∀ (r c : Fin 3), (r : Nat) = row.toNat → (c : Nat) = col.toNat →
      0 ≤ row → row < 3 → 0 ≤ col → col < 3 →
      ((makeMove gs row col).1 = true ↔ gs.board r c = none) ∧
      (gs.board r c = none →
        (makeMove gs row col).2.board r c = some gs.player ∧
        (∀ p : Fin 3 × Fin 3, p ≠ (r, c) →
          (makeMove gs row col).2.board p.1 p.2 = gs.board p.1 p.2) ∧
        (makeMove gs row col).2.player = gs.player) ∧
      (gs.board r c ≠ none → makeMove gs row col = (false, gs))) ∧
    ((row < 0 ∨ 3 ≤ row ∨ col < 0 ∨ 3 ≤ col) → makeMove gs row col = (false, gs)) := by
  constructor
  · intro r c hr hc h0r h3r h0c h3c
    have hcond : 0 ≤ row ∧ row < 3 ∧ 0 ≤ col ∧ col < 3 := ⟨h0r, h3r, h0c, h3c⟩
    have hrr : (⟨row.toNat, by omega⟩ : Fin 3) = r := Fin.ext hr.symm
    have hcc : (⟨col.toNat, by omega⟩ : Fin 3) = c := Fin.ext hc.symm
    unfold makeMove
    rw [dif_pos hcond]
    simp only [hrr, hcc]
    by_cases hcell : gs.board r c = none
    · rw [if_pos hcell]
      refine ⟨by simp [hcell], fun _ => ⟨?_, ?_, rfl⟩, fun hne => absurd hcell hne⟩
      · exact setCell_self gs.board r c (some gs.player)
      · intro p hp
        apply setCell_ne
        intro ⟨hp1, hp2⟩
        exact hp (Prod.ext hp1 hp2)
    · rw [if_neg hcell]
      exact ⟨by simp [hcell], fun h => absurd h hcell, fun _ => rfl⟩
  · intro hout
    unfold makeMove
    rw [dif_neg (by omega)]

/-- Witness for C10: a successful centre move and an out-of-range
move, on an empty board with `X` to play. -/
theorem claim_C10_witness :
    ((makeMove ⟨emptyBoard, Mark.X⟩ 1 1).1 = true ↔
      (emptyBoard : Board) 1 1 = none) ∧
    makeMove ⟨emptyBoard, Mark.X⟩ 5 0 = (false, ⟨emptyBoard, Mark.X⟩) :=
  ⟨((claim_C10 ⟨emptyBoard, Mark.X⟩ 1 1).1 1 1 (by decide) (by decide)
      (by decide) (by decide) (by decide) (by decide)).1,
   (claim_C10 ⟨emptyBoard, Mark.X⟩ 5 0).2 (by omega)⟩

/-- C1 (amended): for every board reachable by legal alternating play
with the Opponent `O` to move that is not already theoretically lost
for `O` (game value at least a draw, `0 ≤ gval b true` — the
amendment forced by the counterexample below), play in which the
Impossible-tier engine makes `O`'s moves via `get_move` and `X`
replies with optimal moves never reaches a position won by `X`. -/
theorem claim_C1 (b : Board) (hreach : Reach b Mark.O) (hval : 0 ≤ gval b true) :
    ∀ s' : Board × Mark, Relation.ReflTransGen GStep (b, Mark.O) s' →
    checkWinnerAI s'.1 ≠ some Mark.X := by
  intro s' hplay
  have hinv : 0 ≤ gval s'.1 (maxFor s'.2) := by
    induction hplay with
    | refl => exact hval
    | tail hsteps hstep ih => exact gstep_preserves hstep ih
  intro hwin
  rw [gval_winnerX hwin (maxFor s'.2)] at hinv
  omega

/-- Witness for C1: the reachable, not-lost position `c1wb` with the
empty (zero-step) continuation. -/
theorem claim_C1_witness : checkWinnerAI c1wb ≠ some Mark.X := by
  have hreach : Reach c1wb Mark.O :=
    Reach.step (Reach.step (Reach.step (Reach.step (Reach.step (Reach.step
      (Reach.step Reach.empty (by decide) (by decide)) (by decide) (by decide))
      (by decide) (by decide)) (by decide) (by decide)) (by decide) (by decide))
      (by decide) (by decide)) (by decide) (by decide)
  exact claim_C1 c1wb hreach (by decide) (c1wb, Mark.O) Relation.ReflTransGen.refl

/-- C1 counterexample: the claim as stated — without excluding
positions already lost for `O` — fails at the reachable position
`c1b0` (`X(0,0), O(0,1), X(1,1)`, `O` to move): the engine's
`get_move` reply `O(2,2)` followed by optimal `X` play (`X(2,0)`, then
after the engine's `O(0,2)` the winning `X(1,0)`) ends with
`check_winner` returning `X`. -/
theorem claim_C1_counterexample :
    Reach c1b0 Mark.O ∧
    Relation.ReflTransGen GStep (c1b0, Mark.O) (c1b4, Mark.O) ∧
    checkWinnerAI c1b4 = some Mark.X := by
  refine ⟨?_, ?_, by decide⟩
  · exact Reach.step (Reach.step (Reach.step Reach.empty (by decide) (by decide))
      (by decide) (by decide)) (by decide) (by decide)
  · have t1 : GStep (c1b0, Mark.O) (c1b1, Mark.X) :=
      @GStep.oMove c1b0 (2, 2) rnd0 (by decide) (by decide) (by decide)
    have t2 : GStep (c1b1, Mark.X) (c1b2, Mark.O) :=
      @GStep.xMove c1b1 (2, 0) (by decide) (by decide)
    have t3 : GStep (c1b2, Mark.O) (c1b3, Mark.X) :=
      @GStep.oMove c1b2 (0, 2) rnd0 (by decide) (by decide) (by decide)
    have t4 : GStep (c1b3, Mark.X) (c1b4, Mark.O) :=
      @GStep.xMove c1b3 (1, 0) (by decide) (by decide)
    exact Relation.ReflTransGen.head t1 (Relation.ReflTransGen.head t2
      (Relation.ReflTransGen.head t3 (Relation.ReflTransGen.head t4
        Relation.ReflTransGen.refl)))

/-! C4 groundwork: each opening reply of the engine scores 0 (a draw
under best play), evaluated cell by cell. -/

set_option maxHeartbeats 2000000 in
theorem emptyScore00 :
    minimax 9 (setCell emptyBoard 0 0 (some Mark.O)) 0 false negInf posInf = 0 := by
  decide

set_option maxHeartbeats 2000000 in
theorem emptyScore01 :
    minimax 9 (setCell emptyBoard 0 1 (some Mark.O)) 0 false negInf posInf = 0 := by
  decide

set_option maxHeartbeats 2000000 in
theorem emptyScore02 :
    minimax 9 (setCell emptyBoard 0 2 (some Mark.O)) 0 false negInf posInf = 0 := by
  decide

set_option maxHeartbeats 2000000 in
theorem emptyScore10 :
    minimax 9 (setCell emptyBoard 1 0 (some Mark.O)) 0 false negInf posInf = 0 := by
  decide

set_option maxHeartbeats 2000000 in
theorem emptyScore11 :
    minimax 9 (setCell emptyBoard 1 1 (some Mark.O)) 0 false negInf posInf = 0 := by
  decide

set_option maxHeartbeats 2000000 in
theorem emptyScore12 :
    minimax 9 (setCell emptyBoard 1 2 (some Mark.O)) 0 false negInf posInf = 0 := by
  decide

set_option maxHeartbeats 2000000 in
theorem emptyScore20 :
    minimax 9 (setCell emptyBoard 2 0 (some Mark.O)) 0 false negInf posInf = 0 := by
  decide

set_option maxHeartbeats 2000000 in
theorem emptyScore21 :
    minimax 9 (setCell emptyBoard 2 1 (some Mark.O)) 0 false negInf posInf = 0 := by
  decide

set_option maxHeartbeats 2000000 in
theorem emptyScore22 :
    minimax 9 (setCell emptyBoard 2 2 (some Mark.O)) 0 false negInf posInf = 0 := by
  decide

/-- The engine's reply on the empty board: all nine openings score 0,
so the strict-improvement loop keeps the first row-major cell. -/
theorem getBestMove_empty : getBestMove 9 emptyBoard = some (0, 0) := by
  have hEC : emptyCells emptyBoard =
      [(0, 0), (0, 1), (0, 2), (1, 0), (1, 1), (1, 2), (2, 0), (2, 1), (2, 2)] := by
    decide
  unfold getBestMove
  rw [hEC]
  simp only [pickBest, emptyScore00, emptyScore01, emptyScore02, emptyScore10, emptyScore11, emptyScore12, emptyScore20, emptyScore21, emptyScore22]
  norm_num [negInf]

/-- C4 (amended): on the empty board with the Opponent to move, the
Impossible-tier engine with the mistake branch disabled returns the
first empty cell in row-major order, `(0, 0)` — not the centre: all
nine openings score 0 and the selection loop keeps the first seen. -/
theorem claim_C4 (rnd : RandSrc) (h : 0 ≤ rnd.mistakeRoll) :
    getMove "Impossible" rnd emptyBoard = (some (0, 0), emptyBoard) := by
  rw [getMove_impossible rnd h emptyBoard, getBestMove_empty]

/-- C4 counterexample: the claim as stated is false — the engine's
reply on the empty board is `(0, 0)`, not the centre `(1, 1)`. -/
theorem claim_C4_counterexample :
    (getMove "Impossible" rnd0 emptyBoard).1 ≠ some (1, 1) := by
  have h1 : (getMove "Impossible" rnd0 emptyBoard).1 = some (0, 0) := by
    rw [getMove_impossible rnd0 (by decide) emptyBoard, getBestMove_empty]
  rw [h1]
  decide

/-- Witness for C4 at the fixed oracle. -/
theorem claim_C4_witness :
    getMove "Impossible" rnd0 emptyBoard = (some (0, 0), emptyBoard) :=
  claim_C4 rnd0 (by decide)

end TicTacToe


